import Mathlib

/-!
Verification development for the signal evaluation, resonance aggregation and
backtest simulation engine of the strategy-workbench repository.

Conventions of the embedding:
* Python floats are modelled by the rationals; the source performs only
  field arithmetic, comparisons, one square root (modelled by Rat.sqrt) and
  rounding to two decimals, so exact rational arithmetic is a faithful model
  of the numeric intent.  Python round is round-half-to-even; the model
  rounds half up.  No claim below depends on the tie-breaking direction.
* Python dict-based records become structures.  List indexing uses getD with
  the default value; every in-engine access is in bounds, and out-of-bounds
  accesses are noted at the definition they concern.
* The fields named open in the source are called open_ here because open is
  a Lean keyword.  The parameters wick_ratio and body_ratio of the pin bar
  evaluator are called wick_mult and body_frac here for lexical reasons.
-/

/-- Direction of a signal or position. -/
inductive Dir where
  | long : Dir
  | short : Dir
deriving DecidableEq, Inhabited

/-- One OHLCV bar, source key names ts, open, high, low, close, volume. -/
structure Candle where
  ts : Int
  open_ : ℚ
  high : ℚ
  low : ℚ
  close : ℚ
  volume : ℚ
deriving DecidableEq, Inhabited

/-- Raw signal emitted by one strategy evaluator (see api/strategies). -/
structure RawSignal where
  direction : Dir
  entry_price : ℚ
  stop_loss : ℚ
  enter_tag : String
  strategy_name : String
deriving DecidableEq, Inhabited

/-- Result of calc_resonance in api/engine/resonance.py. -/
structure ResSignal where
  direction : Dir
  strength : Nat
  strategies : List String
  entry_price : ℚ
  stop_loss : ℚ
  enter_tag : String
deriving DecidableEq, Inhabited

/-- Rounding to two decimals, modelling the Python round(x, 2) calls.
Python rounds half to even, the model rounds half up; no claim depends on
the tie-breaking rule. -/
def round2 (x : ℚ) : ℚ := ((⌊x * 100 + 1/2⌋ : ℤ) : ℚ) / 100

/-- Maximum of a nonempty list of rationals, modelling Python max(...);
the default is returned for the empty list (where the source would raise
or uses an explicit default argument). -/
def listMaxD (l : List ℚ) (d : ℚ) : ℚ :=
  match l with
  | [] => d
  | x :: xs => xs.foldl max x

/-- Minimum, dual to listMaxD. -/
def listMinD (l : List ℚ) (d : ℚ) : ℚ :=
  match l with
  | [] => d
  | x :: xs => xs.foldl min x

/-- Maximum stop of a signal group, Python max(s.stop_loss for s in group). -/
def groupStopMax (g : List RawSignal) : ℚ := listMaxD (g.map (·.stop_loss)) 0

/-- Minimum stop of a signal group, Python min(s.stop_loss for s in group). -/
def groupStopMin (g : List RawSignal) : ℚ := listMinD (g.map (·.stop_loss)) 0

/-- Builds the composite signal for the winning group (calc_resonance body,
lines 46-69 of resonance.py). -/
def resonanceOf (group : List RawSignal) (direction : Dir) : ResSignal :=
  { direction := direction
    strength := group.length
    strategies := group.map (·.strategy_name)
    entry_price := (group.map (·.entry_price)).sum / group.length
    stop_loss := match direction with
      | Dir.long => groupStopMax group
      | Dir.short => groupStopMin group
    enter_tag := String.intercalate "+" (group.map (·.enter_tag)) }

/-- calc_resonance from api/engine/resonance.py: partition the raw signals
by direction, pick the larger group with ties resolved to long, and build
the composite signal; empty input yields none. -/
def calc_resonance (signals : List RawSignal) : Option ResSignal :=
  if signals = [] then none
  else
    let long_signals := signals.filter (fun s => s.direction = Dir.long)
    let short_signals := signals.filter (fun s => s.direction = Dir.short)
    if short_signals.length ≤ long_signals.length ∧ long_signals ≠ [] then
      some (resonanceOf long_signals Dir.long)
    else if short_signals ≠ [] then
      some (resonanceOf short_signals Dir.short)
    else none

/-- EMA recurrence after the seed: each output is
input * m + previous * (1 - m) (calc_ema in indicators.py). -/
def emaFrom (m : ℚ) : ℚ → List ℚ → List ℚ
  | _, [] => []
  | prev, x :: xs => (x * m + prev * (1 - m)) :: emaFrom m (x * m + prev * (1 - m)) xs

/-- calc_ema from api/engine/indicators.py: seed with the first value,
multiplier 2 / (period + 1). -/
def calc_ema (data : List ℚ) (period : Nat) : List ℚ :=
  match data with
  | [] => []
  | d :: rest => d :: emaFrom (2 / ((period : ℚ) + 1)) d rest

/-- Sliding-window sums for the SMA series: consumes the leading elements
of the data (olds) and the elements past the first window (news), keeping
the running window sum (the O(n) loop of calc_sma_series). -/
def smaWindows (w : ℚ) : List ℚ → List ℚ → List ℚ
  | _, [] => []
  | [], _ :: _ => []
  | o :: os, x :: xs => (w + x - o) :: smaWindows (w + x - o) os xs

/-- calc_sma_series from api/engine/indicators.py: zero padding for the
first period - 1 entries, then the sliding-window mean.  The source never
calls it with period 0 (a zero period would crash the source); the model
returns the zero series in that case. -/
def calc_sma_series (data : List ℚ) (period : Nat) : List ℚ :=
  if data.length < period ∨ period = 0 then List.replicate data.length 0
  else
    let w0 := (data.take period).sum
    List.replicate (period - 1) 0 ++
      (w0 :: smaWindows w0 data (data.drop period)).map (fun w => w / (period : ℚ))

/-- calc_rsi_series from api/engine/indicators.py: the first period entries
are the neutral 50, later entries use window averages of gains and losses,
returning 100 when the average loss is exactly zero. -/
def calc_rsi_series (closes : List ℚ) (period : Nat) : List ℚ :=
  let n := closes.length
  if n < period + 1 ∨ period = 0 then List.replicate n 50
  else
    let diffs := (closes.zip closes.tail).map (fun q => q.2 - q.1)
    let gains := 0 :: diffs.map (fun d => max 0 d)
    let losses := 0 :: diffs.map (fun d => max 0 (-d))
    (List.range n).map (fun i =>
      if i < period then 50
      else
        let avg_gain := ((gains.drop (i + 1 - period)).take period).sum / (period : ℚ)
        let avg_loss := ((losses.drop (i + 1 - period)).take period).sum / (period : ℚ)
        if avg_loss = 0 then 100 else 100 - (100 / (1 + avg_gain / avg_loss)))

/-- Full MACD series (calc_macd_series in indicators.py). -/
structure MacdSeries where
  dif : List ℚ
  dea : List ℚ
  histogram : List ℚ
deriving DecidableEq

/-- calc_macd_series from api/engine/indicators.py with the hard-coded
12, 26, 9 periods; inputs shorter than 26 give all-zero series. -/
def calc_macd_series (closes : List ℚ) : MacdSeries :=
  if closes.length < 26 then
    ⟨List.replicate closes.length 0, List.replicate closes.length 0,
      List.replicate closes.length 0⟩
  else
    let ema12 := calc_ema closes 12
    let ema26 := calc_ema closes 26
    let dif := (ema12.zip ema26).map (fun q => q.1 - q.2)
    let dea := calc_ema dif 9
    let histogram := (dif.zip dea).map (fun q => q.1 - q.2)
    ⟨dif, dea, histogram⟩

/-- One row (upper, middle, lower, bandwidth) of the Bollinger series. -/
def bollRow (closes : List ℚ) (period : Nat) (i : Nat) : ℚ × ℚ × ℚ × ℚ :=
  if i + 1 < period ∨ period = 0 then (0, 0, 0, 0)
  else
    let window := (closes.drop (i + 1 - period)).take period
    let sma := window.sum / (period : ℚ)
    let std := Rat.sqrt ((window.map (fun c => (c - sma) ^ 2)).sum / (period : ℚ))
    let up := sma + 2 * std
    let lo := sma - 2 * std
    let bw := if 0 < sma then (up - lo) / sma * 100 else 0
    (up, sma, lo, bw)

/-- Bollinger band series (calc_bollinger_series in indicators.py). -/
structure BollSeries where
  upper : List ℚ
  middle : List ℚ
  lower : List ℚ
  bandwidth : List ℚ
deriving DecidableEq

/-- calc_bollinger_series from api/engine/indicators.py: population standard
deviation (square root modelled by Rat.sqrt), zero padding before the first
full window, bandwidth zero when the middle band is not positive. -/
def calc_bollinger_series (closes : List ℚ) (period : Nat) : BollSeries :=
  let rows := (List.range closes.length).map (bollRow closes period)
  ⟨rows.map (·.1), rows.map (·.2.1), rows.map (·.2.2.1), rows.map (·.2.2.2)⟩

/-- Parameters of the pin bar evaluator (get_default_params in
api/strategies/pin_bar.py); wick_mult is the source wick_ratio and
body_frac the source body_ratio. -/
structure PinBarParams where
  wick_mult : ℚ
  body_frac : ℚ
  trend_lookback : Nat
  stop_loss_pct : ℚ
deriving DecidableEq

/-- Default pin bar parameters: 5.0, 0.2, 10, 0.02. -/
def pinDefaults : PinBarParams := ⟨5, 1/5, 10, 1/50⟩

/-- Declared warm-up of the pin bar evaluator. -/
def pin_startup : Nat := 20

/-- PinBarStrategy._is_downtrend: the close lookback bars back is higher
than the previous close, with at least three closes available. -/
def pin_is_downtrend (p : PinBarParams) (candles : List Candle) (index : Nat) : Bool :=
  let start := index - p.trend_lookback
  if index ≤ start then false
  else
    let prices : List ℚ := ((candles.drop start).take (index - start)).map (·.close)
    if prices.length < 3 then false
    else decide (prices.getD (prices.length - 1) 0 < prices.getD 0 0)

/-- PinBarStrategy._is_uptrend, dual to pin_is_downtrend. -/
def pin_is_uptrend (p : PinBarParams) (candles : List Candle) (index : Nat) : Bool :=
  let start := index - p.trend_lookback
  if index ≤ start then false
  else
    let prices : List ℚ := ((candles.drop start).take (index - start)).map (·.close)
    if prices.length < 3 then false
    else decide (prices.getD 0 0 < prices.getD (prices.length - 1) 0)

/-- PinBarStrategy.check_signal from api/strategies/pin_bar.py.  The source
indexes candles[index] directly (raising if index is out of range); the
model reads the default candle there, whose zero range makes it abstain. -/
def pin_check_signal (p : PinBarParams) (candles : List Candle) (index : Nat) :
    Option RawSignal :=
  if index < pin_startup then none
  else
    let c := candles.getD index default
    let total_range := c.high - c.low
    if total_range ≤ 0 then none
    else
      let body := |c.close - c.open_|
      let upper_wick := c.high - max c.open_ c.close
      let lower_wick := min c.open_ c.close - c.low
      if p.body_frac < body / total_range then none
      else
        let body2 := if body = 0 then total_range * (1/1000) else body
        if p.wick_mult ≤ lower_wick / body2 ∧ pin_is_downtrend p candles index then
          some ⟨Dir.long, c.close, c.low, "pin_hammer", "pin_bar"⟩
        else if p.wick_mult ≤ upper_wick / body2 ∧ pin_is_uptrend p candles index then
          some ⟨Dir.short, c.close, c.high, "pin_shooting_star", "pin_bar"⟩
        else none

/-- Parameters of the MA breakout evaluator (api/strategies/ma90.py). -/
structure MA90Params where
  ma_period : Nat
  confirm_bars : Nat
  stop_loss_pct : ℚ
deriving DecidableEq

/-- Default MA breakout parameters: 120, 3, 0.025. -/
def ma90Defaults : MA90Params := ⟨120, 3, 1/40⟩

/-- Declared warm-up of the MA breakout evaluator. -/
def ma90_startup : Nat := 125

/-- MA90Strategy.check_signal from api/strategies/ma90.py. -/
def ma90_check_signal (p : MA90Params) (candles : List Candle) (index : Nat) :
    Option RawSignal :=
  if index < ma90_startup then none
  else
    let closes := (candles.take (index + 1)).map (·.close)
    if closes.length < p.ma_period + p.confirm_bars + 1 then none
    else
      let ma_series := calc_sma_series closes p.ma_period
      let current_price := closes.getD (closes.length - 1) 0
      let current_ma := ma_series.getD (ma_series.length - 1) 0
      if current_ma = 0 then none
      else
        let pre_index := closes.length - p.confirm_bars - 1
        if pre_index < p.ma_period then none
        else
          let pre_close := closes.getD pre_index 0
          let pre_ma := ma_series.getD pre_index 0
          let recent_closes := closes.drop (closes.length - p.confirm_bars)
          let recent_mas := ma_series.drop (ma_series.length - p.confirm_bars)
          let all_above := (recent_closes.zip recent_mas).all (fun q => decide (q.2 < q.1))
          let all_below := (recent_closes.zip recent_mas).all (fun q => decide (q.1 < q.2))
          if pre_close < pre_ma ∧ all_above then
            some ⟨Dir.long, current_price, current_price * (1 - p.stop_loss_pct),
              "ma90_breakout_up", "ma90"⟩
          else if pre_ma < pre_close ∧ all_below then
            some ⟨Dir.short, current_price, current_price * (1 + p.stop_loss_pct),
              "ma90_breakout_down", "ma90"⟩
          else none

/-- Parameters of the RSI pullback evaluator (api/strategies/rsi_pullback.py). -/
structure RSIParams where
  rsi_period : Nat
  ma_period : Nat
  oversold : ℚ
  overbought : ℚ
  stop_loss_pct : ℚ
deriving DecidableEq

/-- Default RSI pullback parameters: 14, 120, 35, 65, 0.025. -/
def rsiDefaults : RSIParams := ⟨14, 120, 35, 65, 1/40⟩

/-- Declared warm-up of the RSI pullback evaluator. -/
def rsi_startup : Nat := 135

/-- RSIPullbackStrategy.check_signal from api/strategies/rsi_pullback.py. -/
def rsi_check_signal (p : RSIParams) (candles : List Candle) (index : Nat) :
    Option RawSignal :=
  if index < rsi_startup then none
  else
    let closes := (candles.take (index + 1)).map (·.close)
    if closes.length < p.ma_period + p.rsi_period then none
    else
      let ma_series := calc_sma_series closes p.ma_period
      let current_ma := ma_series.getD (ma_series.length - 1) 0
      if current_ma = 0 then none
      else
        let rsi_series := calc_rsi_series closes p.rsi_period
        let current_rsi := rsi_series.getD (rsi_series.length - 1) 0
        let prev_rsi := if 2 ≤ rsi_series.length then rsi_series.getD (rsi_series.length - 2) 0 else 50
        let current_price := closes.getD (closes.length - 1) 0
        if current_ma < current_price ∧ prev_rsi < p.oversold ∧ p.oversold ≤ current_rsi then
          some ⟨Dir.long, current_price, current_price * (1 - p.stop_loss_pct),
            "rsi_pullback_long", "rsi_pullback"⟩
        else if current_price < current_ma ∧ p.overbought < prev_rsi ∧ current_rsi ≤ p.overbought then
          some ⟨Dir.short, current_price, current_price * (1 + p.stop_loss_pct),
            "rsi_pullback_short", "rsi_pullback"⟩
        else none

/-- Parameters of the MACD divergence evaluator
(api/strategies/macd_divergence.py); the three period parameters exist in
the source defaults but are unused by check_signal, which calls
calc_macd_series with its hard-coded 12, 26, 9. -/
structure MACDParams where
  fast_period : Nat
  slow_period : Nat
  signal_period : Nat
  divergence_bars : Nat
  lookback : Nat
  min_peak_distance : Nat
  max_freshness : Nat
  price_div_pct : ℚ
  stop_loss_pct : ℚ
deriving DecidableEq

/-- Default MACD divergence parameters. -/
def macdDefaults : MACDParams := ⟨12, 26, 9, 3, 30, 5, 5, 1/200, 3/100⟩

/-- Declared warm-up of the MACD divergence evaluator. -/
def macd_startup : Nat := 60

/-- MACDDivergenceStrategy._find_peaks: indices in the trailing lookback
window whose value strictly dominates the confirm neighbours on both
sides, with their values, in ascending index order. -/
def find_peaks (data : List ℚ) (lookback confirm : Nat) : List (Nat × ℚ) :=
  let start := data.length - lookback
  (List.range data.length).filterMap (fun i =>
    if start + confirm ≤ i ∧ i + confirm < data.length ∧
        (List.range confirm).all (fun j =>
          decide (data.getD (i - (j + 1)) 0 < data.getD i 0) &&
          decide (data.getD (i + (j + 1)) 0 < data.getD i 0)) then
      some (i, data.getD i 0)
    else none)

/-- MACDDivergenceStrategy._find_valleys, dual to find_peaks. -/
def find_valleys (data : List ℚ) (lookback confirm : Nat) : List (Nat × ℚ) :=
  let start := data.length - lookback
  (List.range data.length).filterMap (fun i =>
    if start + confirm ≤ i ∧ i + confirm < data.length ∧
        (List.range confirm).all (fun j =>
          decide (data.getD i 0 < data.getD (i - (j + 1)) 0) &&
          decide (data.getD i 0 < data.getD (i + (j + 1)) 0)) then
      some (i, data.getD i 0)
    else none)

/-- MACDDivergenceStrategy.check_signal from api/strategies/macd_divergence.py. -/
def macd_check_signal (p : MACDParams) (candles : List Candle) (index : Nat) :
    Option RawSignal :=
  if index < macd_startup then none
  else
    let closes := (candles.take (index + 1)).map (·.close)
    let highs := (candles.take (index + 1)).map (·.high)
    let lows := (candles.take (index + 1)).map (·.low)
    let dif := (calc_macd_series closes).dif
    if dif.length < 10 then none
    else
      let confirm := p.divergence_bars
      let current_price := closes.getD (closes.length - 1) 0
      let data_len := closes.length
      let price_peaks := find_peaks highs p.lookback confirm
      let price_valleys := find_valleys lows p.lookback confirm
      let dif_peaks := find_peaks dif p.lookback confirm
      let dif_valleys := find_valleys dif p.lookback confirm
      let pp1 := price_peaks.getD (price_peaks.length - 2) (0, 0)
      let pp2 := price_peaks.getD (price_peaks.length - 1) (0, 0)
      let dp1 := dif_peaks.getD (dif_peaks.length - 2) (0, 0)
      let dp2 := dif_peaks.getD (dif_peaks.length - 1) (0, 0)
      if 2 ≤ price_peaks.length ∧ 2 ≤ dif_peaks.length ∧
          data_len - 1 - pp2.1 ≤ p.max_freshness + confirm ∧
          p.min_peak_distance ≤ ((pp2.1 : Int) - (pp1.1 : Int)).natAbs ∧
          p.min_peak_distance ≤ ((dp2.1 : Int) - (dp1.1 : Int)).natAbs ∧
          pp1.2 * (1 + p.price_div_pct) < pp2.2 ∧ dp2.2 < dp1.2 then
        some ⟨Dir.short, current_price, current_price * (1 + p.stop_loss_pct),
          "macd_top_div", "macd_divergence"⟩
      else
        let pv1 := price_valleys.getD (price_valleys.length - 2) (0, 0)
        let pv2 := price_valleys.getD (price_valleys.length - 1) (0, 0)
        let dv1 := dif_valleys.getD (dif_valleys.length - 2) (0, 0)
        let dv2 := dif_valleys.getD (dif_valleys.length - 1) (0, 0)
        if 2 ≤ price_valleys.length ∧ 2 ≤ dif_valleys.length ∧
            data_len - 1 - pv2.1 ≤ p.max_freshness + confirm ∧
            p.min_peak_distance ≤ ((pv2.1 : Int) - (pv1.1 : Int)).natAbs ∧
            p.min_peak_distance ≤ ((dv2.1 : Int) - (dv1.1 : Int)).natAbs ∧
            pv2.2 < pv1.2 * (1 - p.price_div_pct) ∧ dv1.2 < dv2.2 then
          some ⟨Dir.long, current_price, current_price * (1 - p.stop_loss_pct),
            "macd_bottom_div", "macd_divergence"⟩
        else none

/-- Parameters of the Bollinger squeeze evaluator
(api/strategies/bb_squeeze.py). -/
structure BBParams where
  bb_period : Nat
  squeeze_lookback : Nat
  squeeze_percentile : ℚ
  ma_period : Nat
  stop_loss_pct : ℚ
deriving DecidableEq

/-- Default Bollinger squeeze parameters: 20, 20, 0.3, 120, 0.025. -/
def bbDefaults : BBParams := ⟨20, 20, 3/10, 120, 1/40⟩

/-- Declared warm-up of the Bollinger squeeze evaluator. -/
def bb_startup : Nat := 50

/-- BBSqueezeStrategy.check_signal from api/strategies/bb_squeeze.py.  The
source iterates j over range(index - squeeze_lookback, index); with the
declared warm-up and the default lookback that range never goes negative,
and the model clamps it at zero. -/
def bb_check_signal (p : BBParams) (candles : List Candle) (index : Nat) :
    Option RawSignal :=
  if index < bb_startup then none
  else
    let closes := (candles.take (index + 1)).map (·.close)
    if closes.length < p.bb_period + p.squeeze_lookback then none
    else
      let bb := calc_bollinger_series closes p.bb_period
      let current_bw := bb.bandwidth.getD index 0
      let current_upper := bb.upper.getD index 0
      let current_lower := bb.lower.getD index 0
      let current_middle := bb.middle.getD index 0
      if current_bw = 0 ∨ current_middle = 0 then none
      else
        let recent_bw := (((List.range index).drop (index - p.squeeze_lookback)).map
          (fun j => bb.bandwidth.getD j 0)).filter (fun b => decide (0 < b))
        if recent_bw = [] then none
        else
          let max_bw := listMaxD recent_bw 0
          let threshold := max_bw * p.squeeze_percentile
          let prev_bw := if 0 < index then bb.bandwidth.getD (index - 1) 0 else current_bw
          if ¬ (prev_bw ≤ threshold ∧ prev_bw < current_bw) then none
          else
            let current_price := closes.getD (closes.length - 1) 0
            let current_ma := (calc_sma_series closes p.ma_period).getD (closes.length - 1) 0
            let trendOn := 0 < p.ma_period ∧ p.ma_period ≤ closes.length ∧ 0 < current_ma
            if trendOn ∧ current_upper < current_price ∧ current_price < current_ma then none
            else if trendOn ∧ current_price < current_lower ∧ current_ma < current_price then none
            else if current_upper < current_price then
              some ⟨Dir.long, current_price, current_middle, "bb_squeeze_long", "bb_squeeze"⟩
            else if current_price < current_lower then
              some ⟨Dir.short, current_price, current_middle, "bb_squeeze_short", "bb_squeeze"⟩
            else none

/-- A resolved strategy instance as the backtest uses it: the declared
warm-up and the check_signal capability. -/
structure Strategy where
  startup_candle_count : Nat
  check_signal : List Candle → Nat → Option RawSignal

/-- The strategy registry populated by the register decorator of
api/strategies/base.py over the five variants, with their default
parameters.  The optional per-strategy parameter overrides of run_backtest
only change numeric parameters and never affect which ids resolve. -/
def strategy_registry (sid : String) : Option Strategy :=
  if sid = "pin_bar" then some ⟨pin_startup, pin_check_signal pinDefaults⟩
  else if sid = "macd_divergence" then some ⟨macd_startup, macd_check_signal macdDefaults⟩
  else if sid = "ma90" then some ⟨ma90_startup, ma90_check_signal ma90Defaults⟩
  else if sid = "rsi_pullback" then some ⟨rsi_startup, rsi_check_signal rsiDefaults⟩
  else if sid = "bb_squeeze" then some ⟨bb_startup, bb_check_signal bbDefaults⟩
  else none

/-- Strategy resolution loop of run_backtest (lines 54-59 of backtest.py):
unknown ids are skipped. -/
def resolveStrategies (strategy_ids : List String) : List Strategy :=
  strategy_ids.filterMap strategy_registry

/-- Position sizing rules; the source default is
strength_1_pct 3, strength_2_pct 5, strength_3_pct 8, max_total_pct 70. -/
structure PositionRules where
  strength_1_pct : ℚ
  strength_2_pct : ℚ
  strength_3_pct : ℚ
  max_total_pct : ℚ
deriving DecidableEq

/-- Default position rules of run_backtest. -/
def defaultRules : PositionRules := ⟨3, 5, 8, 70⟩

/-- Percentage for a strength tier: the source looks up the key
strength_min(strength,3)_pct and falls back to 3 when the key is absent
(only possible for strength 0, which calc_resonance never produces). -/
def tierPct (rules : PositionRules) (strength : Nat) : ℚ :=
  match min strength 3 with
  | 1 => rules.strength_1_pct
  | 2 => rules.strength_2_pct
  | 3 => rules.strength_3_pct
  | _ => 3

/-- A simulated open position (the pos dict of run_backtest, lines 100-112). -/
structure Position where
  direction : Dir
  entry_price : ℚ
  entry_ts : Int
  entry_index : Nat
  position_size : ℚ
  stop_loss : ℚ
  initial_stop_loss : ℚ
  strategies : List String
  enter_tag : String
  strength : Nat
  leverage : ℚ
deriving DecidableEq, Inhabited

/-- Exit reasons; the source stores strings, rendering the roi target into
the string via percent formatting, which the model keeps as a tagged value. -/
inductive ExitReason where
  | stop_loss_hit : ExitReason
  | roi_exit : ℚ → ExitReason
  | backtest_end : ExitReason
deriving DecidableEq, Inhabited

/-- A closed trade (the dict built by _close_position). -/
structure Trade where
  direction : Dir
  entry_price : ℚ
  entry_ts : Int
  exit_price : ℚ
  exit_ts : Int
  position_size : ℚ
  pnl : ℚ
  pnl_pct : ℚ
  exit_reason : ExitReason
  strategies : List String
  enter_tag : String
  strength : Nat
  leverage : ℚ
deriving DecidableEq, Inhabited

/-- Signed percentage move between entry and a price, as computed by
_close_position, _calc_equity and the roi check of run_backtest. -/
def pnlPct (d : Dir) (entry price : ℚ) : ℚ :=
  match d with
  | Dir.long => (price - entry) / entry
  | Dir.short => (entry - price) / entry

/-- _close_position from api/engine/backtest.py. -/
def close_position (pos : Position) (exit_price : ℚ) (reason : ExitReason)
    (exit_ts : Int) : Trade :=
  { direction := pos.direction
    entry_price := pos.entry_price
    entry_ts := pos.entry_ts
    exit_price := exit_price
    exit_ts := exit_ts
    position_size := pos.position_size
    pnl := round2 (pos.position_size * pnlPct pos.direction pos.entry_price exit_price * pos.leverage)
    pnl_pct := round2 (pnlPct pos.direction pos.entry_price exit_price * 100)
    exit_reason := reason
    strategies := pos.strategies
    enter_tag := pos.enter_tag
    strength := pos.strength
    leverage := pos.leverage }

/-- _calc_equity from api/engine/backtest.py: available capital plus, for
each open position, margin plus leveraged unrealized pnl at the price. -/
def calc_equity (capital : ℚ) (positions : List Position) (price : ℚ) : ℚ :=
  round2 (capital + (positions.map (fun p =>
    p.position_size + pnlPct p.direction p.entry_price price * p.position_size * p.leverage)).sum)

/-- Ordering of roi table entries by their integer key. -/
def roiKeyLe (a b : Nat × ℚ) : Prop := a.1 ≤ b.1

instance : DecidableRel roiKeyLe := fun a b => inferInstanceAs (Decidable (a.1 ≤ b.1))

instance : IsTotal (Nat × ℚ) roiKeyLe := ⟨fun a b => Nat.le_total a.1 b.1⟩

instance : IsTrans (Nat × ℚ) roiKeyLe := ⟨fun _ _ _ h1 h2 => Nat.le_trans h1 h2⟩

/-- The roi table sorted by key, as sorted(roi_table.items(), key=int). -/
def roiSort (table : List (Nat × ℚ)) : List (Nat × ℚ) := List.insertionSort roiKeyLe table

/-- _get_roi_target from api/engine/backtest.py: scan the entries in
ascending key order, keeping the value of every key that is at most
bars_held; the last kept value wins. -/
def get_roi_target (table : List (Nat × ℚ)) (bars_held : Nat) : Option ℚ :=
  (roiSort table).foldl (fun acc kv => if kv.1 ≤ bars_held then some kv.2 else acc) none

/-- Exit evaluation for one open position at one bar (lines 118-144 of
backtest.py): the stop first (intrabar touch), then the time-decayed roi
take profit at the close.  The source skips the roi block when the table
is empty; _get_roi_target of the empty table is none, so the behaviour
coincides. -/
def checkExit (roi_table : List (Nat × ℚ)) (i : Nat) (current : Candle)
    (pos : Position) : Option (ℚ × ExitReason) :=
  if pos.direction = Dir.long ∧ current.low ≤ pos.stop_loss then
    some (pos.stop_loss, ExitReason.stop_loss_hit)
  else if pos.direction = Dir.short ∧ pos.stop_loss ≤ current.high then
    some (pos.stop_loss, ExitReason.stop_loss_hit)
  else
    match get_roi_target roi_table (i - pos.entry_index) with
    | some target =>
        if target ≤ pnlPct pos.direction pos.entry_price current.close then
          some (current.close, ExitReason.roi_exit target)
        else none
    | none => none

/-- Static configuration of one backtest run. -/
structure BTConfig where
  candles : List Candle
  strategies : List Strategy
  min_strength : Nat
  initial_capital : ℚ
  rules : PositionRules
  roi_table : List (Nat × ℚ)
  leverage : ℚ

/-- Mutable state of the run_backtest loop. -/
structure BTState where
  capital : ℚ
  open_positions : List Position
  closed_trades : List Trade
  equity_curve : List (Int × ℚ)
  all_signals : List (ResSignal × Int × ℚ)
  pending_signal : Option ResSignal
deriving Inhabited

/-- Initial loop state. -/
def initState (cfg : BTConfig) : BTState :=
  ⟨cfg.initial_capital, [], [], [], [], none⟩

/-- max(s.startup_candle_count for s in strategies); the engine only calls
this with a nonempty strategy list, where the fold equals the Python max. -/
def maxStartup (strategies : List Strategy) : Nat :=
  strategies.foldl (fun a s => max a s.startup_candle_count) 0

/-- Total notional of a list of open positions (the total_used sum of
run_backtest, line 94). -/
def sumSizes (l : List Position) : ℚ := (l.map Position.position_size).sum

/-- The notional cap of run_backtest (line 95): a configured percentage of
the initial capital. -/
def maxAllowed (cfg : BTConfig) : ℚ := cfg.initial_capital * cfg.rules.max_total_pct / 100

/-- The tier size of a pending signal before capping (lines 89-91): the
percentage of initial capital for the strength tier. -/
def tierSize (cfg : BTConfig) (signal : ResSignal) : ℚ :=
  cfg.initial_capital * (tierPct cfg.rules signal.strength / 100)

/-- Step 1 of the per-bar loop (lines 83-114 of backtest.py): execute the
buffered signal of the previous bar at the open of the current bar, sizing
by strength tier against initial capital and capping total open notional. -/
def executeSignal (cfg : BTConfig) (st : BTState) (signal : ResSignal) (i : Nat)
    (current : Candle) : BTState :=
  let entry_price := current.open_
  let tier_size := tierSize cfg signal
  let total_used := sumSizes st.open_positions
  let max_allowed := maxAllowed cfg
  let position_size :=
    if max_allowed < total_used + tier_size then max 0 (max_allowed - total_used)
    else tier_size
  if 0 < position_size then
    { st with
      open_positions := st.open_positions ++
        [{ direction := signal.direction
           entry_price := entry_price
           entry_ts := current.ts
           entry_index := i
           position_size := position_size
           stop_loss := signal.stop_loss
           initial_stop_loss := signal.stop_loss
           strategies := signal.strategies
           enter_tag := signal.enter_tag
           strength := signal.strength
           leverage := cfg.leverage }]
      capital := st.capital - position_size
      pending_signal := none }
  else { st with pending_signal := none }

/-- Wrapper of step 1: the pending signal executes only past bar 0 (the
source clears the buffer only inside that branch; the buffer is always
empty at bar 0, so the model keeps the same guard shape). -/
def stepOpen (cfg : BTConfig) (st : BTState) (i : Nat) (current : Candle) : BTState :=
  match st.pending_signal with
  | some signal => if 0 < i then executeSignal cfg st signal i current else st
  | none => st

/-- Step 2 of the per-bar loop (lines 116-154 of backtest.py): evaluate
exits for every open position independently, close the triggered ones in
list order, credit margin plus pnl, and keep the rest. -/
def stepExits (cfg : BTConfig) (st : BTState) (i : Nat) (current : Candle) : BTState :=
  let newTrades := st.open_positions.filterMap (fun p =>
    (checkExit cfg.roi_table i current p).map (fun e => close_position p e.1 e.2 current.ts))
  let remaining := st.open_positions.filter (fun p => (checkExit cfg.roi_table i current p).isNone)
  { st with
    open_positions := remaining
    closed_trades := st.closed_trades ++ newTrades
    capital := st.capital + (newTrades.map (fun t => t.position_size + t.pnl)).sum }

/-- Step 4 of the per-bar loop (lines 163-184 of backtest.py): run every
evaluator, aggregate by resonance, and buffer the result unless its
strength is below the minimum or a same-direction position is open. -/
def stepSignals (cfg : BTConfig) (st : BTState) (i : Nat) (current : Candle) : BTState :=
  let raw_signals := cfg.strategies.filterMap (fun s => s.check_signal cfg.candles i)
  match calc_resonance raw_signals with
  | some res =>
      if cfg.min_strength ≤ res.strength then
        if st.open_positions.any (fun p => p.direction = res.direction) then st
        else
          { st with
            pending_signal := some res
            all_signals := st.all_signals ++ [(res, current.ts, current.close)] }
      else st
  | none => st

/-- Equity sampling (steps 3 and 5, lines 156-161 and 186-188). -/
def appendEquity (st : BTState) (current : Candle) : BTState :=
  { st with equity_curve := st.equity_curve ++
      [(current.ts, calc_equity st.capital st.open_positions current.close)] }

/-- One iteration of the for-loop of run_backtest at bar i, in the fixed
source order: execute the pending signal, evaluate exits, skip signal
generation during warm-up, and sample equity. -/
def stepBar (cfg : BTConfig) (st : BTState) (i : Nat) : BTState :=
  let current := cfg.candles.getD i default
  let st1 := stepOpen cfg st i current
  let st2 := stepExits cfg st1 i current
  let st3 := if i < maxStartup cfg.strategies then st2 else stepSignals cfg st2 i current
  appendEquity st3 current

/-- Loop state after processing bars 0 .. n-1. -/
def stateAfter (cfg : BTConfig) : Nat → BTState
  | 0 => initState cfg
  | n + 1 => stepBar cfg (stateAfter cfg n) n

/-- Maximum drawdown loop of _calc_report (lines 302-311 of backtest.py):
running peak seeded with the initial capital, drawdown as a percentage of
the peak whenever the peak is positive. -/
def ddStep (s : ℚ × ℚ) (eq : ℚ) : ℚ × ℚ :=
  let peak := if s.1 < eq then eq else s.1
  let dd := if 0 < peak then (peak - eq) / peak * 100 else 0
  (peak, if s.2 < dd then dd else s.2)

/-- The maximum drawdown of an equity series. -/
def max_drawdown_loop (initial_capital : ℚ) (equities : List ℚ) : ℚ :=
  (equities.foldl ddStep (initial_capital, 0)).2

/-- Per-tag accumulator of _calc_report. -/
structure TagStat where
  count : Nat
  wins : Nat
  total_pnl : ℚ
deriving DecidableEq

/-- Per-trade update of one tag accumulator. -/
def bumpTag (s : TagStat) (t : Trade) : TagStat :=
  ⟨s.count + 1, s.wins + (if 0 < t.pnl then 1 else 0), s.total_pnl + t.pnl⟩

/-- One step of the tag_stats dict building loop, as an insertion-ordered
association list. -/
def upsertTag (acc : List (String × TagStat)) (t : Trade) : List (String × TagStat) :=
  if acc.any (fun q => q.1 = t.enter_tag) then
    acc.map (fun q => if q.1 = t.enter_tag then (q.1, bumpTag q.2 t) else q)
  else acc ++ [(t.enter_tag, bumpTag ⟨0, 0, 0⟩ t)]

/-- The per-tag breakdown of _calc_report (lines 331-339). -/
def tagStatsOf (trades : List Trade) : List (String × TagStat) :=
  trades.foldl upsertTag []

/-- The report dict of _calc_report.  profit_factor is an Option, none
standing for the float infinity of the source; sharpe is the key
sharpe_ratio of the source. -/
structure Report where
  initial_capital : ℚ
  final_capital : ℚ
  total_return_pct : ℚ
  total_trades : Nat
  winning_trades : Nat
  losing_trades : Nat
  win_rate : ℚ
  profit_factor : Option ℚ
  max_drawdown_pct : ℚ
  sharpe : ℚ
  avg_win_pct : ℚ
  avg_loss_pct : ℚ
  best_trade_pct : ℚ
  worst_trade_pct : ℚ
  buy_hold_return_pct : ℚ
  tag_stats : List (String × TagStat)
deriving DecidableEq

/-- _calc_report from api/engine/backtest.py.  In the empty-trades branch
the source returns a dict without a tag_stats key and with the final
capital unrounded; the model uses the empty list there. -/
def calc_report (trades : List Trade) (equity_curve : List (Int × ℚ))
    (initial_capital final_capital : ℚ) (candles : List Candle) : Report :=
  if trades = [] then
    { initial_capital := initial_capital
      final_capital := final_capital
      total_return_pct := 0
      total_trades := 0
      winning_trades := 0
      losing_trades := 0
      win_rate := 0
      profit_factor := some 0
      max_drawdown_pct := 0
      sharpe := 0
      avg_win_pct := 0
      avg_loss_pct := 0
      best_trade_pct := 0
      worst_trade_pct := 0
      buy_hold_return_pct := 0
      tag_stats := [] }
  else
    let winning := trades.filter (fun t => decide (0 < t.pnl))
    let losing := trades.filter (fun t => decide (t.pnl ≤ 0))
    let win_rate := (winning.length : ℚ) / (trades.length : ℚ) * 100
    let total_win := (winning.map (·.pnl)).sum
    let total_loss := |(losing.map (·.pnl)).sum|
    let max_dd := max_drawdown_loop initial_capital (equity_curve.map (·.2))
    let sharpe :=
      if 2 ≤ trades.length then
        let returns := trades.map (·.pnl_pct)
        let avg_ret := returns.sum / (returns.length : ℚ)
        let std_ret := Rat.sqrt ((returns.map (fun r => (r - avg_ret) ^ 2)).sum / (returns.length : ℚ))
        if 0 < std_ret then avg_ret / std_ret else 0
      else 0
    let first_close := (candles.getD 0 default).close
    let buy_hold :=
      if candles ≠ [] ∧ 0 < first_close then
        ((candles.getD (candles.length - 1) default).close - first_close) / first_close * 100
      else 0
    { initial_capital := initial_capital
      final_capital := round2 final_capital
      total_return_pct := round2 ((final_capital - initial_capital) / initial_capital * 100)
      total_trades := trades.length
      winning_trades := winning.length
      losing_trades := losing.length
      win_rate := round2 win_rate
      profit_factor := if 0 < total_loss then some (round2 (total_win / total_loss)) else none
      max_drawdown_pct := round2 max_dd
      sharpe := round2 sharpe
      avg_win_pct := round2 (if winning = [] then 0 else (winning.map (·.pnl_pct)).sum / (winning.length : ℚ))
      avg_loss_pct := round2 (if losing = [] then 0 else (losing.map (·.pnl_pct)).sum / (losing.length : ℚ))
      best_trade_pct := round2 (listMaxD (trades.map (·.pnl_pct)) 0)
      worst_trade_pct := round2 (listMinD (trades.map (·.pnl_pct)) 0)
      buy_hold_return_pct := round2 buy_hold
      tag_stats := tagStatsOf trades }

/-- The value returned by a successful run: the report plus the buffered
signal log (stored inside the report dict by the source), the closed
trades and the equity curve. -/
structure BacktestResult where
  report : Report
  signals : List (ResSignal × Int × ℚ)
  trades : List Trade
  equity_curve : List (Int × ℚ)

/-- End of the loop (lines 190-208 of backtest.py): force-close every
remaining position at the last close, then build the report. -/
def finalize (cfg : BTConfig) (st : BTState) : BacktestResult :=
  let lastC := cfg.candles.getD (cfg.candles.length - 1) default
  let endTrades := st.open_positions.map (fun p =>
    close_position p lastC.close ExitReason.backtest_end lastC.ts)
  let trades := st.closed_trades ++ endTrades
  let final_capital := st.capital + (endTrades.map (fun t => t.position_size + t.pnl)).sum
  { report := calc_report trades st.equity_curve cfg.initial_capital final_capital cfg.candles
    signals := st.all_signals
    trades := trades
    equity_curve := st.equity_curve }

/-- A full simulation pass over the candles. -/
def runCore (cfg : BTConfig) : BacktestResult :=
  finalize cfg (stateAfter cfg cfg.candles.length)

/-- run_backtest from api/engine/backtest.py over already-resolved
strategies: the two structured-error guards, then the simulation. -/
def run_backtest (candles : List Candle) (strategies : List Strategy)
    (min_strength : Nat) (initial_capital : ℚ) (rules : PositionRules)
    (roi_table : List (Nat × ℚ)) (leverage : ℚ) : Except String BacktestResult :=
  if candles.length < 100 then Except.error "K线数据不足（至少100根）"
  else if strategies.isEmpty then Except.error "没有有效策略"
  else Except.ok (runCore ⟨candles, strategies, min_strength, initial_capital, rules, roi_table, leverage⟩)

/-- run_backtest as called with strategy ids, resolving them through the
registry. -/
def run_backtest_ids (candles : List Candle) (strategy_ids : List String)
    (min_strength : Nat) (initial_capital : ℚ) (rules : PositionRules)
    (roi_table : List (Nat × ℚ)) (leverage : ℚ) : Except String BacktestResult :=
  run_backtest candles (resolveStrategies strategy_ids) min_strength initial_capital
    rules roi_table leverage

/-- Entry-lag correctness of one closed trade: the entry happened at the
open of some bar j past bar 0, and the signal log holds a resonance signal
recorded at bar j - 1 with the fields of the trade. -/
def tradeEntryOk (cfg : BTConfig) (sigs : List (ResSignal × Int × ℚ)) (t : Trade) : Prop :=
  ∃ j, 1 ≤ j ∧ j < cfg.candles.length ∧
    t.entry_price = (cfg.candles.getD j default).open_ ∧
    t.entry_ts = (cfg.candles.getD j default).ts ∧
    ∃ sr ∈ sigs, sr.2.1 = (cfg.candles.getD (j - 1) default).ts ∧
      sr.1.direction = t.direction ∧ sr.1.strength = t.strength ∧
      sr.1.enter_tag = t.enter_tag ∧ sr.1.strategies = t.strategies

/-- Entry-lag correctness of one open position, with its recorded bar. -/
def posEntryOk (cfg : BTConfig) (sigs : List (ResSignal × Int × ℚ)) (p : Position) : Prop :=
  1 ≤ p.entry_index ∧ p.entry_index < cfg.candles.length ∧
    p.entry_price = (cfg.candles.getD p.entry_index default).open_ ∧
    p.entry_ts = (cfg.candles.getD p.entry_index default).ts ∧
    ∃ sr ∈ sigs, sr.2.1 = (cfg.candles.getD (p.entry_index - 1) default).ts ∧
      sr.1.direction = p.direction ∧ sr.1.strength = p.strength ∧
      sr.1.enter_tag = p.enter_tag ∧ sr.1.strategies = p.strategies

/-- Loop invariant for the one-bar signal lag, at a state reached after
processing n bars: every open position and closed trade entered at the
open of the bar after its recorded signal, and a buffered signal was
recorded at the bar just processed. -/
def lagInv (cfg : BTConfig) (n : Nat) (st : BTState) : Prop :=
  (∀ p ∈ st.open_positions, posEntryOk cfg st.all_signals p) ∧
  (∀ t ∈ st.closed_trades, tradeEntryOk cfg st.all_signals t) ∧
  (∀ s, st.pending_signal = some s → 1 ≤ n ∧
    ∃ sr ∈ st.all_signals, sr.1 = s ∧ sr.2.1 = (cfg.candles.getD (n - 1) default).ts)

/-- Exposure invariant: all open positions have positive notional and
their total stays within the configured cap. -/
def capInv (cfg : BTConfig) (st : BTState) : Prop :=
  (∀ p ∈ st.open_positions, 0 < p.position_size) ∧
  sumSizes st.open_positions ≤ maxAllowed cfg

/-- A flat bar at one price, all four prices equal (used by concrete runs
below). -/
def flatBar (t : Int) (x : ℚ) : Candle := ⟨t, x, x, x, x, 0⟩

/-- Concrete candles of the C1 witness run: three flat bars at 100. -/
def c1Candles : List Candle := [flatBar 0 100, flatBar 1 100, flatBar 2 100]

/-- Mock evaluator of the C1 witness run: fires one long signal at bar 0. -/
def c1Strat : Strategy :=
  ⟨0, fun _ i => if i = 0 then some ⟨Dir.long, 100, 90, "t", "s"⟩ else none⟩

/-- Configuration of the C1 witness run. -/
def c1Cfg : BTConfig := ⟨c1Candles, [c1Strat], 1, 10000, defaultRules, [], 1⟩

/-- The resonance signal recorded at bar 0 of the C1 witness run. -/
def c1Res : ResSignal := ⟨Dir.long, 1, ["s"], 100, 90, "t"⟩

/-- The single closed trade of the C1 witness run: entered at the open of
bar 1, force-closed at the end. -/
def c1Trade : Trade :=
  ⟨Dir.long, 100, 1, 100, 2, 300, 0, 0, ExitReason.backtest_end, ["s"], "t", 1, 1⟩

/-- Candles of the C6 counterexample: 122 flat bars at -100, one at -200,
three at -1; every bar satisfies low ≤ min(open, close) and
max(open, close) ≤ high, but the closes are negative. -/
def c6Cex : List Candle :=
  List.replicate 122 (flatBar 0 (-100)) ++
    flatBar 0 (-200) :: List.replicate 3 (flatBar 0 (-1))

/-- Candles of the C6 witness: twenty declining flat bars, then a hammer
(open 100, close 100.1, low 98, high 100.2). -/
def c6Candles : List Candle :=
  [flatBar 0 200, flatBar 1 199, flatBar 2 198, flatBar 3 197, flatBar 4 196,
   flatBar 5 195, flatBar 6 194, flatBar 7 193, flatBar 8 192, flatBar 9 191,
   flatBar 10 190, flatBar 11 189, flatBar 12 188, flatBar 13 187, flatBar 14 186,
   flatBar 15 185, flatBar 16 184, flatBar 17 183, flatBar 18 182, flatBar 19 181,
   ⟨20, 100, 1002/10, 98, 1001/10, 0⟩]

/-- The hammer signal the pin bar evaluator emits at the last bar of
c6Candles. -/
def c6Sig : RawSignal := ⟨Dir.long, 1001/10, 98, "pin_hammer", "pin_bar"⟩

/-- A zero-pnl trade used to check the report counting. -/
def c10Trade : Trade :=
  ⟨Dir.long, 100, 0, 100, 1, 300, 0, 0, ExitReason.backtest_end, ["s"], "t", 1, 1⟩

/-- Two long raw signals with stops 97 and 98, the example of the
conservative-stop rule. -/
def c4Signals : List RawSignal :=
  [⟨Dir.long, 100, 97, "a", "s1"⟩, ⟨Dir.long, 100, 98, "b", "s2"⟩]

/-- A trivial configuration used to instantiate the exposure cap. -/
def c2Cfg : BTConfig := ⟨[], [], 1, 10000, defaultRules, [], 1⟩

/-- A two-row roi table with keys 0 and 30, used to instantiate the roi
lookup. -/
def c8Table : List (Nat × ℚ) := [(0, 1/10), (30, 1/20)]

/-- The closes of the C6 counterexample candles, as a literal list. -/
def c6Closes : List ℚ :=
  [-100, -100, -100, -100, -100, -100, -100, -100, -100, -100, -100, -100,
   -100, -100, -100, -100, -100, -100, -100, -100, -100, -100, -100, -100,
   -100, -100, -100, -100, -100, -100, -100, -100, -100, -100, -100, -100,
   -100, -100, -100, -100, -100, -100, -100, -100, -100, -100, -100, -100,
   -100, -100, -100, -100, -100, -100, -100, -100, -100, -100, -100, -100,
   -100, -100, -100, -100, -100, -100, -100, -100, -100, -100, -100, -100,
   -100, -100, -100, -100, -100, -100, -100, -100, -100, -100, -100, -100,
   -100, -100, -100, -100, -100, -100, -100, -100, -100, -100, -100, -100,
   -100, -100, -100, -100, -100, -100, -100, -100, -100, -100, -100, -100,
   -100, -100, -100, -100, -100, -100, -100, -100, -100, -100, -100, -100,
   -100, -100, -200, -1, -1, -1]

/-- The open position of the C1 witness run after bar 1. -/
def c1Pos : Position := ⟨Dir.long, 100, 1, 1, 300, 90, 90, ["s"], "t", 1, 1⟩

/-- State of the C1 witness run after bar 0: the signal of bar 0 is
buffered and logged, nothing is open yet. -/
def c1S1 : BTState :=
  ⟨10000, [], [], [(0, 10000)], [(⟨Dir.long, 1, ["s"], 100, 90, "t"⟩, 0, 100)],
    some ⟨Dir.long, 1, ["s"], 100, 90, "t"⟩⟩

/-- State of the C1 witness run after bar 1: the buffered signal executed
at the open of bar 1. -/
def c1S2 : BTState :=
  ⟨9700, [c1Pos], [], [(0, 10000), (1, 10000)],
    [(⟨Dir.long, 1, ["s"], 100, 90, "t"⟩, 0, 100)], none⟩

/-- State of the C1 witness run after bar 2. -/
def c1S3 : BTState :=
  ⟨9700, [c1Pos], [], [(0, 10000), (1, 10000), (2, 10000)],
    [(⟨Dir.long, 1, ["s"], 100, 90, "t"⟩, 0, 100)], none⟩

theorem le_foldl_max (xs : List ℚ) (a : ℚ) : a ≤ xs.foldl max a := by
  induction xs generalizing a with
  | nil => exact le_refl a
  | cons x xs ih => exact le_trans (le_max_left a x) (ih (max a x))

theorem mem_le_foldl_max (xs : List ℚ) (a : ℚ) : ∀ y ∈ xs, y ≤ xs.foldl max a := by
  induction xs generalizing a with
  | nil => intro y hy; cases hy
  | cons x xs ih =>
    intro y hy
    rcases List.mem_cons.mp hy with h | h
    · subst h; exact le_trans (le_max_right a y) (le_foldl_max xs (max a y))
    · exact ih (max a x) y h

theorem foldl_max_mem (xs : List ℚ) (a : ℚ) : xs.foldl max a = a ∨ xs.foldl max a ∈ xs := by
  induction xs generalizing a with
  | nil => exact Or.inl rfl
  | cons x xs ih =>
    rcases ih (max a x) with h | h
    · rcases max_choice a x with hc | hc
      · exact Or.inl (by rw [List.foldl_cons, h, hc])
      · exact Or.inr (by rw [List.foldl_cons, h, hc]; exact List.mem_cons_self x xs)
    · exact Or.inr (List.mem_cons_of_mem x h)

theorem foldl_min_le (xs : List ℚ) (a : ℚ) : xs.foldl min a ≤ a := by
  induction xs generalizing a with
  | nil => exact le_refl a
  | cons x xs ih => exact le_trans (ih (min a x)) (min_le_left a x)

theorem foldl_min_le_mem (xs : List ℚ) (a : ℚ) : ∀ y ∈ xs, xs.foldl min a ≤ y := by
  induction xs generalizing a with
  | nil => intro y hy; cases hy
  | cons x xs ih =>
    intro y hy
    rcases List.mem_cons.mp hy with h | h
    · subst h; exact le_trans (foldl_min_le xs (min a y)) (min_le_right a y)
    · exact ih (min a x) y h

theorem foldl_min_mem (xs : List ℚ) (a : ℚ) : xs.foldl min a = a ∨ xs.foldl min a ∈ xs := by
  induction xs generalizing a with
  | nil => exact Or.inl rfl
  | cons x xs ih =>
    rcases ih (min a x) with h | h
    · rcases min_choice a x with hc | hc
      · exact Or.inl (by rw [List.foldl_cons, h, hc])
      · exact Or.inr (by rw [List.foldl_cons, h, hc]; exact List.mem_cons_self x xs)
    · exact Or.inr (List.mem_cons_of_mem x h)

theorem listMaxD_spec (l : List ℚ) (d : ℚ) (h : l ≠ []) :
    listMaxD l d ∈ l ∧ ∀ y ∈ l, y ≤ listMaxD l d := by
  match l with
  | [] => exact absurd rfl h
  | x :: xs =>
    refine ⟨?_, ?_⟩
    · rcases foldl_max_mem xs x with h1 | h1
      · rw [listMaxD, h1]; exact List.mem_cons_self x xs
      · rw [listMaxD]; exact List.mem_cons_of_mem x h1
    · intro y hy
      rcases List.mem_cons.mp hy with h1 | h1
      · subst h1; exact le_foldl_max xs y
      · exact mem_le_foldl_max xs x y h1

theorem listMinD_spec (l : List ℚ) (d : ℚ) (h : l ≠ []) :
    listMinD l d ∈ l ∧ ∀ y ∈ l, listMinD l d ≤ y := by
  match l with
  | [] => exact absurd rfl h
  | x :: xs =>
    refine ⟨?_, ?_⟩
    · rcases foldl_min_mem xs x with h1 | h1
      · rw [listMinD, h1]; exact List.mem_cons_self x xs
      · rw [listMinD]; exact List.mem_cons_of_mem x h1
    · intro y hy
      rcases List.mem_cons.mp hy with h1 | h1
      · subst h1; exact foldl_min_le xs y
      · exact foldl_min_le_mem xs x y h1

theorem groupStopMax_spec (g : List RawSignal) (hg : g ≠ []) :
    (∃ s ∈ g, groupStopMax g = s.stop_loss) ∧ ∀ s ∈ g, s.stop_loss ≤ groupStopMax g := by
  have hmap : g.map (·.stop_loss) ≠ [] := fun hnil => hg (List.map_eq_nil_iff.mp hnil)
  obtain ⟨hmem, hub⟩ := listMaxD_spec (g.map (·.stop_loss)) 0 hmap
  constructor
  · obtain ⟨s, hs, hval⟩ := List.mem_map.mp hmem
    exact ⟨s, hs, hval.symm⟩
  · intro s hs
    exact hub _ (List.mem_map_of_mem _ hs)

theorem groupStopMin_spec (g : List RawSignal) (hg : g ≠ []) :
    (∃ s ∈ g, groupStopMin g = s.stop_loss) ∧ ∀ s ∈ g, groupStopMin g ≤ s.stop_loss := by
  have hmap : g.map (·.stop_loss) ≠ [] := fun hnil => hg (List.map_eq_nil_iff.mp hnil)
  obtain ⟨hmem, hlb⟩ := listMinD_spec (g.map (·.stop_loss)) 0 hmap
  constructor
  · obtain ⟨s, hs, hval⟩ := List.mem_map.mp hmem
    exact ⟨s, hs, hval.symm⟩
  · intro s hs
    exact hlb _ (List.mem_map_of_mem _ hs)

theorem dir_cover (signals : List RawSignal) (h : signals ≠ [])
    (hl : signals.filter (fun s => s.direction = Dir.long) = [])
    (hs : signals.filter (fun s => s.direction = Dir.short) = []) : False := by
  obtain ⟨s, hmem⟩ := List.exists_mem_of_ne_nil signals h
  cases hd : s.direction with
  | long =>
    have : s ∈ signals.filter (fun s => s.direction = Dir.long) :=
      List.mem_filter.mpr ⟨hmem, by simp [hd]⟩
    rw [hl] at this; cases this
  | short =>
    have : s ∈ signals.filter (fun s => s.direction = Dir.short) :=
      List.mem_filter.mpr ⟨hmem, by simp [hd]⟩
    rw [hs] at this; cases this

/-- C3: for every nonempty list of raw signals, calc_resonance returns the
direction with strictly more signals, resolves ties to long, and reports
strength equal to the size of the winning group with no upper clamp; in
particular two longs and one short give direction long and strength 2, and
the empty input gives no signal. -/
theorem c3_resonance_majority :
    (∀ signals : List RawSignal, signals ≠ [] →
      ∃ r, calc_resonance signals = some r ∧
        ((signals.filter (fun s => s.direction = Dir.short)).length <
            (signals.filter (fun s => s.direction = Dir.long)).length →
          r.direction = Dir.long) ∧
        ((signals.filter (fun s => s.direction = Dir.long)).length <
            (signals.filter (fun s => s.direction = Dir.short)).length →
          r.direction = Dir.short) ∧
        ((signals.filter (fun s => s.direction = Dir.long)).length =
            (signals.filter (fun s => s.direction = Dir.short)).length →
          r.direction = Dir.long) ∧
        r.strength = (if r.direction = Dir.long
          then (signals.filter (fun s => s.direction = Dir.long)).length
          else (signals.filter (fun s => s.direction = Dir.short)).length)) ∧
    calc_resonance [] = none ∧
    (∀ a b c : RawSignal, a.direction = Dir.long → b.direction = Dir.long →
      c.direction = Dir.short →
      ∃ r, calc_resonance [a, b, c] = some r ∧ r.direction = Dir.long ∧ r.strength = 2) := by
  have main : ∀ signals : List RawSignal, signals ≠ [] →
      ∃ r, calc_resonance signals = some r ∧
        ((signals.filter (fun s => s.direction = Dir.short)).length <
            (signals.filter (fun s => s.direction = Dir.long)).length →
          r.direction = Dir.long) ∧
        ((signals.filter (fun s => s.direction = Dir.long)).length <
            (signals.filter (fun s => s.direction = Dir.short)).length →
          r.direction = Dir.short) ∧
        ((signals.filter (fun s => s.direction = Dir.long)).length =
            (signals.filter (fun s => s.direction = Dir.short)).length →
          r.direction = Dir.long) ∧
        r.strength = (if r.direction = Dir.long
          then (signals.filter (fun s => s.direction = Dir.long)).length
          else (signals.filter (fun s => s.direction = Dir.short)).length) := by
    intro signals h
    rw [calc_resonance, if_neg h]
    by_cases h1 : (signals.filter (fun s => s.direction = Dir.short)).length ≤
        (signals.filter (fun s => s.direction = Dir.long)).length ∧
        signals.filter (fun s => s.direction = Dir.long) ≠ []
    · rw [if_pos h1]
      refine ⟨_, rfl, fun _ => rfl, ?_, fun _ => rfl, ?_⟩
      · intro hlt
        exact absurd h1.1 (not_le_of_lt hlt)
      · simp [resonanceOf]
    · rw [if_neg h1]
      by_cases h2 : signals.filter (fun s => s.direction = Dir.short) ≠ []
      · rw [if_pos h2]
        refine ⟨_, rfl, ?_, fun _ => rfl, ?_, ?_⟩
        · intro hlt
          have hne : signals.filter (fun s => s.direction = Dir.long) ≠ [] := by
            intro hnil
            rw [hnil] at hlt
            exact absurd hlt (by simp)
          exact absurd ⟨le_of_lt hlt, hne⟩ h1
        · intro heq
          rcases not_and_or.mp h1 with hno | hno
          · exact absurd (le_of_eq heq.symm) hno
          · have hlz : signals.filter (fun s => s.direction = Dir.long) = [] :=
              not_not.mp hno
            have : (signals.filter (fun s => s.direction = Dir.short)).length = 0 := by
              rw [← heq, hlz]; rfl
            exact absurd (List.length_eq_zero.mp this) h2
        · simp [resonanceOf]
      · exfalso
        have hsnil : signals.filter (fun s => s.direction = Dir.short) = [] := not_not.mp h2
        have hlnil : signals.filter (fun s => s.direction = Dir.long) = [] := by
          by_contra hl
          exact h1 ⟨by rw [hsnil]; simp, hl⟩
        exact dir_cover signals h hlnil hsnil
  refine ⟨main, rfl, ?_⟩
  intro a b c ha hb hc
  obtain ⟨r, hr, hl, _, _, hs⟩ := main [a, b, c] (by simp)
  have hfL : ([a, b, c].filter (fun s => s.direction = Dir.long)).length = 2 := by
    simp [List.filter, ha, hb, hc]
  have hfS : ([a, b, c].filter (fun s => s.direction = Dir.short)).length = 1 := by
    simp [List.filter, ha, hb, hc]
  have hdir : r.direction = Dir.long := hl (by rw [hfL, hfS]; norm_num)
  exact ⟨r, hr, hdir, by rw [hs, if_pos hdir, hfL]⟩

/-- C4: for every nonempty list of raw signals the resonance stop is the
most conservative stop of the winning group, that is the maximum of the
stops when the winning direction is long and the minimum when it is short;
in particular two long signals with stops 97 and 98 resonate with
stop_loss 98 and strength 2. -/
theorem c4_resonance_stop :
    (∀ signals : List RawSignal, signals ≠ [] →
      ∃ r, calc_resonance signals = some r ∧
        (r.direction = Dir.long →
          (∃ s ∈ signals.filter (fun s => s.direction = Dir.long),
            r.stop_loss = s.stop_loss) ∧
          ∀ s ∈ signals.filter (fun s => s.direction = Dir.long),
            s.stop_loss ≤ r.stop_loss) ∧
        (r.direction = Dir.short →
          (∃ s ∈ signals.filter (fun s => s.direction = Dir.short),
            r.stop_loss = s.stop_loss) ∧
          ∀ s ∈ signals.filter (fun s => s.direction = Dir.short),
            r.stop_loss ≤ s.stop_loss)) ∧
    (∃ r, calc_resonance
        [⟨Dir.long, 100, 97, "a", "s1"⟩, ⟨Dir.long, 100, 98, "b", "s2"⟩] = some r ∧
      r.stop_loss = 98 ∧ r.strength = 2) := by
  constructor
  · intro signals h
    rw [calc_resonance, if_neg h]
    by_cases h1 : (signals.filter (fun s => s.direction = Dir.short)).length ≤
        (signals.filter (fun s => s.direction = Dir.long)).length ∧
        signals.filter (fun s => s.direction = Dir.long) ≠ []
    · rw [if_pos h1]
      refine ⟨_, rfl, ?_, ?_⟩
      · intro _
        have hspec := groupStopMax_spec _ h1.2
        refine ⟨?_, ?_⟩
        · obtain ⟨s, hs, hval⟩ := hspec.1
          exact ⟨s, hs, by simpa [resonanceOf] using hval⟩
        · intro s hs
          have := hspec.2 s hs
          simpa [resonanceOf] using this
      · intro hdir
        simp [resonanceOf] at hdir
    · rw [if_neg h1]
      by_cases h2 : signals.filter (fun s => s.direction = Dir.short) ≠ []
      · rw [if_pos h2]
        refine ⟨_, rfl, ?_, ?_⟩
        · intro hdir
          simp [resonanceOf] at hdir
        · intro _
          have hspec := groupStopMin_spec _ h2
          refine ⟨?_, ?_⟩
          · obtain ⟨s, hs, hval⟩ := hspec.1
            exact ⟨s, hs, by simpa [resonanceOf] using hval⟩
          · intro s hs
            have := hspec.2 s hs
            simpa [resonanceOf] using this
      · exfalso
        have hsnil : signals.filter (fun s => s.direction = Dir.short) = [] := not_not.mp h2
        have hlnil : signals.filter (fun s => s.direction = Dir.long) = [] := by
          by_contra hl
          exact h1 ⟨by rw [hsnil]; simp, hl⟩
        exact dir_cover signals h hlnil hsnil
  · refine ⟨resonanceOf [⟨Dir.long, 100, 97, "a", "s1"⟩, ⟨Dir.long, 100, 98, "b", "s2"⟩]
      Dir.long, ?_, ?_, rfl⟩
    · rw [calc_resonance, if_neg (by simp)]
      rw [if_pos]
      · rfl
      · refine ⟨?_, ?_⟩ <;> simp [List.filter]
    · have h98 : (resonanceOf
          [⟨Dir.long, 100, 97, "a", "s1"⟩, ⟨Dir.long, 100, 98, "b", "s2"⟩]
          Dir.long).stop_loss = max 97 98 := rfl
      rw [h98, max_eq_right (by norm_num : (97 : ℚ) ≤ 98)]

theorem le_ite_max (a b : ℚ) : a ≤ if a < b then b else a := by
  split
  · exact le_of_lt (by assumption)
  · exact le_refl a

theorem ddStep_le (s : ℚ × ℚ) (eq : ℚ) : s.2 ≤ (ddStep s eq).2 :=
  le_ite_max s.2 _

theorem foldl_ddStep_le (l : List ℚ) (s : ℚ × ℚ) : s.2 ≤ (l.foldl ddStep s).2 := by
  induction l generalizing s with
  | nil => exact le_refl _
  | cons x xs ih => exact le_trans (ddStep_le s x) (ih (ddStep s x))

theorem round2_mono {x y : ℚ} (h : x ≤ y) : round2 x ≤ round2 y := by
  rw [round2, round2]
  have hf : (⌊x * 100 + 1/2⌋ : ℤ) ≤ ⌊y * 100 + 1/2⌋ :=
    Int.floor_le_floor (by linarith)
  have : ((⌊x * 100 + 1/2⌋ : ℤ) : ℚ) ≤ ((⌊y * 100 + 1/2⌋ : ℤ) : ℚ) := by
    exact_mod_cast hf
  linarith

/-- C9: the maximum drawdown loop of the report is monotone under
extension of the equity curve: appending further equity points can only
keep or increase the computed maximum drawdown, both before and after the
final two-decimal rounding the report applies. -/
theorem c9_drawdown_monotone (initial_capital : ℚ) (xs ys : List ℚ) :
    max_drawdown_loop initial_capital xs ≤ max_drawdown_loop initial_capital (xs ++ ys) ∧
    round2 (max_drawdown_loop initial_capital xs) ≤
      round2 (max_drawdown_loop initial_capital (xs ++ ys)) := by
  have h : max_drawdown_loop initial_capital xs ≤
      max_drawdown_loop initial_capital (xs ++ ys) := by
    rw [max_drawdown_loop, max_drawdown_loop, List.foldl_append]
    exact foldl_ddStep_le ys _
  exact ⟨h, round2_mono h⟩

theorem filter_length_partition (l : List Trade) :
    (l.filter (fun t => decide (0 < t.pnl))).length +
      (l.filter (fun t => decide (t.pnl ≤ 0))).length = l.length := by
  induction l with
  | nil => rfl
  | cons a l ih =>
    by_cases h : 0 < a.pnl
    · have h1 : decide (0 < a.pnl) = true := decide_eq_true h
      have h2 : decide (a.pnl ≤ 0) = false := decide_eq_false (not_le.mpr h)
      simp [List.filter_cons, h1, h2]
      omega
    · have h1 : decide (0 < a.pnl) = false := decide_eq_false h
      have h2 : decide (a.pnl ≤ 0) = true := decide_eq_true (not_lt.mp h)
      simp [List.filter_cons, h1, h2]
      omega

/-- C10: in the backtest report a trade with pnl exactly 0 counts as
losing: winning trades are exactly those with positive pnl, losing trades
those with pnl at most 0, their counts always add up to the total trade
count, and the win rate divides by the full trade count including zero-pnl
trades. -/
theorem c10_zero_pnl_losing (trades : List Trade) (equity_curve : List (Int × ℚ))
    (initial_capital final_capital : ℚ) (candles : List Candle) :
    ((calc_report trades equity_curve initial_capital final_capital candles).winning_trades +
      (calc_report trades equity_curve initial_capital final_capital candles).losing_trades =
      (calc_report trades equity_curve initial_capital final_capital candles).total_trades) ∧
    ((calc_report trades equity_curve initial_capital final_capital candles).total_trades =
      trades.length) ∧
    (trades ≠ [] →
      (calc_report trades equity_curve initial_capital final_capital candles).winning_trades =
        (trades.filter (fun t => decide (0 < t.pnl))).length ∧
      (calc_report trades equity_curve initial_capital final_capital candles).losing_trades =
        (trades.filter (fun t => decide (t.pnl ≤ 0))).length ∧
      (∀ t ∈ trades, t.pnl = 0 → t ∈ trades.filter (fun t => decide (t.pnl ≤ 0))) ∧
      (calc_report trades equity_curve initial_capital final_capital candles).win_rate =
        round2 ((((trades.filter (fun t => decide (0 < t.pnl))).length : ℚ) /
          (trades.length : ℚ)) * 100)) := by
  by_cases h : trades = []
  · subst h
    refine ⟨rfl, rfl, fun hc => absurd rfl hc⟩
  · rw [calc_report, if_neg h]
    refine ⟨filter_length_partition trades, rfl, fun _ => ⟨rfl, rfl, ?_, rfl⟩⟩
    intro t ht hz
    exact List.mem_filter.mpr ⟨ht, decide_eq_true (le_of_eq hz)⟩


theorem getLast?_mem {α : Type} (l : List α) (a : α) (h : l.getLast? = some a) : a ∈ l := by
  induction l with
  | nil => cases h
  | cons x xs ih =>
    cases hxs : xs with
    | nil =>
      subst hxs
      rw [List.getLast?_singleton] at h
      exact List.mem_singleton.mpr (Option.some_injective _ h).symm
    | cons y ys =>
      subst hxs
      rw [List.getLast?_cons_cons] at h
      exact List.mem_cons_of_mem x (ih h)

theorem getLast?_of_ne_nil {α : Type} : ∀ l : List α, l ≠ [] → ∃ a, l.getLast? = some a
  | [], h => absurd rfl h
  | [x], _ => ⟨x, List.getLast?_singleton x⟩
  | x :: y :: ys, _ => by
      rw [List.getLast?_cons_cons]
      exact getLast?_of_ne_nil (y :: ys) (by simp)

theorem foldl_roi_filter (bars : Nat) (l : List (Nat × ℚ)) (acc : Option ℚ) :
    l.foldl (fun acc kv => if kv.1 ≤ bars then some kv.2 else acc) acc =
      (l.filter (fun kv => decide (kv.1 ≤ bars))).foldl
        (fun acc kv => if kv.1 ≤ bars then some kv.2 else acc) acc := by
  induction l generalizing acc with
  | nil => rfl
  | cons kv l ih =>
    rw [List.foldl_cons, List.filter_cons]
    by_cases h : kv.1 ≤ bars
    · have hd := decide_eq_true h
      rw [if_pos h, hd, if_pos rfl, List.foldl_cons, if_pos h]
      exact ih _
    · have hd := decide_eq_false h
      rw [if_neg h, hd, if_neg Bool.false_ne_true]
      exact ih acc

theorem foldl_roi_applied (bars : Nat) (l : List (Nat × ℚ)) (acc : Option ℚ)
    (h : ∀ kv ∈ l, kv.1 ≤ bars) :
    l.foldl (fun acc kv => if kv.1 ≤ bars then some kv.2 else acc) acc =
      (match l.getLast? with
        | some kv => some kv.2
        | none => acc) := by
  induction l generalizing acc with
  | nil => rfl
  | cons kv l ih =>
    rw [List.foldl_cons, if_pos (h kv (List.mem_cons_self kv l))]
    rw [ih (some kv.2) (fun kv2 h2 => h kv2 (List.mem_cons_of_mem kv h2))]
    cases hl : l with
    | nil => rfl
    | cons y ys =>
      rw [List.getLast?_cons_cons]
      obtain ⟨a, ha⟩ := getLast?_of_ne_nil (y :: ys) (by simp)
      rw [ha]

theorem sorted_getLast_max : ∀ l : List (Nat × ℚ), l.Pairwise roiKeyLe →
    ∀ kv : Nat × ℚ, l.getLast? = some kv → ∀ kv2 ∈ l, kv2.1 ≤ kv.1
  | [], _, kv, h => by cases h
  | [a], _, kv, h => by
      rw [List.getLast?_singleton] at h
      intro kv2 h2
      have h3 := List.mem_singleton.mp h2
      subst h3
      rw [← Option.some_injective _ h]
  | a :: y :: ys, hs, kv, h => by
      rw [List.getLast?_cons_cons] at h
      intro kv2 h2
      have hkv : kv ∈ y :: ys := getLast?_mem _ _ h
      rcases List.mem_cons.mp h2 with h3 | h3
      · subst h3
        exact (List.pairwise_cons.mp hs).1 kv hkv
      · exact sorted_getLast_max (y :: ys) (List.pairwise_cons.mp hs).2 kv h kv2 h3

theorem eq_of_mem_nodup_keys (l : List (Nat × ℚ)) (h : (l.map Prod.fst).Nodup)
    (a b : Nat × ℚ) (ha : a ∈ l) (hb : b ∈ l) (hk : a.1 = b.1) : a = b := by
  induction l with
  | nil => cases ha
  | cons x l ih =>
    rw [List.map_cons, List.nodup_cons] at h
    rcases List.mem_cons.mp ha with h1 | h1 <;> rcases List.mem_cons.mp hb with h2 | h2
    · rw [h1, h2]
    · exfalso
      exact h.1 (by rw [← h1, hk]; exact List.mem_map_of_mem Prod.fst h2)
    · exfalso
      exact h.1 (by rw [← h2, ← hk]; exact List.mem_map_of_mem Prod.fst h1)
    · exact ih h.2 h1 h2

/-- C8: the applicable roi threshold returned by _get_roi_target is the
value of the largest configured bars-held key that is at most the holding
duration, and none when every key exceeds it; and when no stop triggers
and the current percentage profit reaches that threshold, the exit
evaluation closes the position at the current close. -/
theorem c8_roi_lookup (roi_table : List (Nat × ℚ)) (bars_held : Nat)
    (hnd : (roi_table.map Prod.fst).Nodup) :
    (get_roi_target roi_table bars_held = none ↔ ∀ kv ∈ roi_table, bars_held < kv.1) ∧
    (∀ r : ℚ, get_roi_target roi_table bars_held = some r ↔
      ∃ kv ∈ roi_table, kv.2 = r ∧ kv.1 ≤ bars_held ∧
        ∀ kv2 ∈ roi_table, kv2.1 ≤ bars_held → kv2.1 ≤ kv.1) ∧
    (∀ (i : Nat) (current : Candle) (pos : Position) (target : ℚ),
      ¬ (pos.direction = Dir.long ∧ current.low ≤ pos.stop_loss) →
      ¬ (pos.direction = Dir.short ∧ pos.stop_loss ≤ current.high) →
      get_roi_target roi_table (i - pos.entry_index) = some target →
      target ≤ pnlPct pos.direction pos.entry_price current.close →
      checkExit roi_table i current pos = some (current.close, ExitReason.roi_exit target)) := by
  have hperm := List.perm_insertionSort roiKeyLe roi_table
  have hsorted : (roiSort roi_table).Pairwise roiKeyLe :=
    List.sorted_insertionSort roiKeyLe roi_table
  have hmem : ∀ kv : Nat × ℚ, kv ∈ roiSort roi_table ↔ kv ∈ roi_table :=
    fun kv => hperm.mem_iff
  have hL : get_roi_target roi_table bars_held =
      (match ((roiSort roi_table).filter (fun kv => decide (kv.1 ≤ bars_held))).getLast? with
        | some kv => some kv.2
        | none => none) := by
    rw [get_roi_target, foldl_roi_filter]
    exact foldl_roi_applied bars_held _ none
      (fun kv h => by simpa using (List.mem_filter.mp h).2)
  have hLsorted : ((roiSort roi_table).filter
      (fun kv => decide (kv.1 ≤ bars_held))).Pairwise roiKeyLe :=
    List.Pairwise.filter _ hsorted
  have hLmem : ∀ kv : Nat × ℚ,
      kv ∈ (roiSort roi_table).filter (fun kv => decide (kv.1 ≤ bars_held)) ↔
        kv ∈ roi_table ∧ kv.1 ≤ bars_held := by
    intro kv
    rw [List.mem_filter, hmem]
    constructor
    · exact fun h => ⟨h.1, by simpa using h.2⟩
    · exact fun h => ⟨h.1, by simpa using h.2⟩
  refine ⟨?_, ?_, ?_⟩
  · rw [hL]
    cases hlast : ((roiSort roi_table).filter (fun kv => decide (kv.1 ≤ bars_held))).getLast? with
    | none =>
      simp only
      constructor
      · intro _ kv hkv
        by_contra hc
        have hkvf : kv ∈ (roiSort roi_table).filter (fun kv => decide (kv.1 ≤ bars_held)) :=
          (hLmem kv).mpr ⟨hkv, not_lt.mp hc⟩
        have hne : (roiSort roi_table).filter (fun kv => decide (kv.1 ≤ bars_held)) ≠ [] :=
          fun hnil => by rw [hnil] at hkvf; cases hkvf
        obtain ⟨a, ha⟩ := getLast?_of_ne_nil _ hne
        rw [ha] at hlast; cases hlast
      · intro _; trivial
    | some kv =>
      simp only
      constructor
      · intro hcon; cases hcon
      · intro hall
        exfalso
        have h1 := (hLmem kv).mp (getLast?_mem _ _ hlast)
        exact absurd h1.2 (not_le.mpr (hall kv h1.1))
  · intro r
    rw [hL]
    cases hlast : ((roiSort roi_table).filter (fun kv => decide (kv.1 ≤ bars_held))).getLast? with
    | none =>
      simp only
      constructor
      · intro hcon; cases hcon
      · intro ⟨kv, hkv, _, happ, _⟩
        exfalso
        have hkvf : kv ∈ (roiSort roi_table).filter (fun kv => decide (kv.1 ≤ bars_held)) :=
          (hLmem kv).mpr ⟨hkv, happ⟩
        have hne : (roiSort roi_table).filter (fun kv => decide (kv.1 ≤ bars_held)) ≠ [] :=
          fun hnil => by rw [hnil] at hkvf; cases hkvf
        obtain ⟨a, ha⟩ := getLast?_of_ne_nil _ hne
        rw [ha] at hlast; cases hlast
    | some kv =>
      simp only
      have h1 := (hLmem kv).mp (getLast?_mem _ _ hlast)
      have hmax : ∀ kv2 ∈ roi_table, kv2.1 ≤ bars_held → kv2.1 ≤ kv.1 := by
        intro kv2 h2 happ2
        exact sorted_getLast_max _ hLsorted kv hlast kv2 ((hLmem kv2).mpr ⟨h2, happ2⟩)
      constructor
      · intro hr
        exact ⟨kv, h1.1, Option.some_injective _ hr, h1.2, hmax⟩
      · intro ⟨kv2, hkv2, hval2, happ2, hmax2⟩
        have hkeys : kv2.1 = kv.1 :=
          le_antisymm (hmax kv2 hkv2 happ2) (hmax2 kv h1.1 h1.2)
        have : kv2 = kv := eq_of_mem_nodup_keys roi_table hnd kv2 kv hkv2 h1.1 hkeys
        rw [← this, hval2]
  · intro i current pos target h1 h2 hroi hpnl
    rw [checkExit, if_neg h1, if_neg h2, hroi]
    simp only
    rw [if_pos hpnl]

/-- C7: the backtest returns a structured error value exactly when the
input has fewer than 100 candles or no requested strategy id resolves to a
registered variant; the candle check comes first, and in all other cases
the simulation runs and an ok report is returned. -/
theorem c7_structured_errors (candles : List Candle) (strategy_ids : List String)
    (min_strength : Nat) (initial_capital : ℚ) (rules : PositionRules)
    (roi_table : List (Nat × ℚ)) (leverage : ℚ) :
    ((∃ e, run_backtest_ids candles strategy_ids min_strength initial_capital rules
        roi_table leverage = Except.error e) ↔
      candles.length < 100 ∨ ∀ sid ∈ strategy_ids, strategy_registry sid = none) ∧
    (candles.length < 100 →
      run_backtest_ids candles strategy_ids min_strength initial_capital rules
        roi_table leverage = Except.error "K线数据不足（至少100根）") ∧
    (¬ candles.length < 100 → (∀ sid ∈ strategy_ids, strategy_registry sid = none) →
      run_backtest_ids candles strategy_ids min_strength initial_capital rules
        roi_table leverage = Except.error "没有有效策略") ∧
    (¬ candles.length < 100 → ¬ (∀ sid ∈ strategy_ids, strategy_registry sid = none) →
      run_backtest_ids candles strategy_ids min_strength initial_capital rules
        roi_table leverage = Except.ok (runCore ⟨candles, resolveStrategies strategy_ids,
          min_strength, initial_capital, rules, roi_table, leverage⟩)) := by
  have hres : resolveStrategies strategy_ids = [] ↔
      ∀ sid ∈ strategy_ids, strategy_registry sid = none := by
    rw [resolveStrategies]
    exact List.filterMap_eq_nil_iff
  by_cases h1 : candles.length < 100
  · refine ⟨?_, fun _ => ?_, fun hc => absurd h1 hc, fun hc => absurd h1 hc⟩
    · constructor
      · intro _; exact Or.inl h1
      · intro _
        exact ⟨"K线数据不足（至少100根）", by
          rw [run_backtest_ids, run_backtest, if_pos h1]⟩
    · rw [run_backtest_ids, run_backtest, if_pos h1]
  · by_cases h2 : ∀ sid ∈ strategy_ids, strategy_registry sid = none
    · have hnil : resolveStrategies strategy_ids = [] := hres.mpr h2
      refine ⟨?_, fun hc => absurd hc h1, fun _ _ => ?_, fun _ hc => absurd h2 hc⟩
      · constructor
        · intro _; exact Or.inr h2
        · intro _
          exact ⟨"没有有效策略", by
            rw [run_backtest_ids, run_backtest, if_neg h1, if_pos (by rw [hnil]; rfl)]⟩
      · rw [run_backtest_ids, run_backtest, if_neg h1, if_pos (by rw [hnil]; rfl)]
    · have hnn : resolveStrategies strategy_ids ≠ [] := fun hc => h2 (hres.mp hc)
      have hok : run_backtest_ids candles strategy_ids min_strength initial_capital rules
          roi_table leverage = Except.ok (runCore ⟨candles, resolveStrategies strategy_ids,
          min_strength, initial_capital, rules, roi_table, leverage⟩) := by
        rw [run_backtest_ids, run_backtest, if_neg h1, if_neg]
        intro hc
        exact hnn (List.isEmpty_iff.mp (by simpa using hc))
      refine ⟨?_, fun hc => absurd hc h1, fun _ hc => absurd hc h2, fun _ _ => hok⟩
      constructor
      · intro ⟨e, he⟩
        rw [hok] at he
        cases he
      · intro hc
        rcases hc with hc | hc
        · exact absurd hc h1
        · exact absurd hc h2

theorem emaFrom_length (m : ℚ) (xs : List ℚ) : ∀ prev, (emaFrom m prev xs).length = xs.length := by
  induction xs with
  | nil => intro prev; rfl
  | cons x xs ih =>
    intro prev
    rw [emaFrom, List.length_cons, List.length_cons, ih]

theorem calc_ema_length (data : List ℚ) (period : Nat) :
    (calc_ema data period).length = data.length := by
  cases data with
  | nil => rfl
  | cons d rest =>
    rw [calc_ema, List.length_cons, List.length_cons, emaFrom_length]

theorem macd_dif_length (closes : List ℚ) :
    (calc_macd_series closes).dif.length = closes.length := by
  rw [calc_macd_series]
  split
  · rw [List.length_replicate]
  · rw [List.length_map, List.length_zip, calc_ema_length, calc_ema_length, min_self]

/-- C5: every one of the five evaluators abstains at every bar index below
its declared warm-up length, for any parameters; and with default
parameters a history shorter than the indicators need always yields no
signal rather than an error. -/
theorem c5_warmup_none :
    (∀ (p : PinBarParams) (candles : List Candle) (i : Nat), i < pin_startup →
      pin_check_signal p candles i = none) ∧
    (∀ (p : MACDParams) (candles : List Candle) (i : Nat), i < macd_startup →
      macd_check_signal p candles i = none) ∧
    (∀ (p : MA90Params) (candles : List Candle) (i : Nat), i < ma90_startup →
      ma90_check_signal p candles i = none) ∧
    (∀ (p : RSIParams) (candles : List Candle) (i : Nat), i < rsi_startup →
      rsi_check_signal p candles i = none) ∧
    (∀ (p : BBParams) (candles : List Candle) (i : Nat), i < bb_startup →
      bb_check_signal p candles i = none) ∧
    (∀ (candles : List Candle) (i : Nat), candles.length < 10 →
      macd_check_signal macdDefaults candles i = none) ∧
    (∀ (candles : List Candle) (i : Nat), candles.length < 124 →
      ma90_check_signal ma90Defaults candles i = none) ∧
    (∀ (candles : List Candle) (i : Nat), candles.length < 134 →
      rsi_check_signal rsiDefaults candles i = none) ∧
    (∀ (candles : List Candle) (i : Nat), candles.length < 40 →
      bb_check_signal bbDefaults candles i = none) ∧
    (∀ (candles : List Candle) (i : Nat), i < candles.length → candles.length ≤ pin_startup →
      pin_check_signal pinDefaults candles i = none) := by
  refine ⟨?_, ?_, ?_, ?_, ?_, ?_, ?_, ?_, ?_, ?_⟩
  · intro p candles i hi
    rw [pin_check_signal, if_pos hi]
  · intro p candles i hi
    rw [macd_check_signal, if_pos hi]
  · intro p candles i hi
    rw [ma90_check_signal, if_pos hi]
  · intro p candles i hi
    rw [rsi_check_signal, if_pos hi]
  · intro p candles i hi
    rw [bb_check_signal, if_pos hi]
  · intro candles i hn
    by_cases hi : i < macd_startup
    · rw [macd_check_signal, if_pos hi]
    · rw [macd_check_signal, if_neg hi]
      exact if_pos (by
        rw [macd_dif_length, List.length_map, List.length_take]
        omega)
  · intro candles i hn
    by_cases hi : i < ma90_startup
    · rw [ma90_check_signal, if_pos hi]
    · rw [ma90_check_signal, if_neg hi]
      refine if_pos ?_
      have h124 : ma90Defaults.ma_period + ma90Defaults.confirm_bars + 1 = 124 := rfl
      rw [h124, List.length_map, List.length_take]
      omega
  · intro candles i hn
    by_cases hi : i < rsi_startup
    · rw [rsi_check_signal, if_pos hi]
    · rw [rsi_check_signal, if_neg hi]
      refine if_pos ?_
      have h134 : rsiDefaults.ma_period + rsiDefaults.rsi_period = 134 := rfl
      rw [h134, List.length_map, List.length_take]
      omega
  · intro candles i hn
    by_cases hi : i < bb_startup
    · rw [bb_check_signal, if_pos hi]
    · rw [bb_check_signal, if_neg hi]
      refine if_pos ?_
      have h40 : bbDefaults.bb_period + bbDefaults.squeeze_lookback = 40 := rfl
      rw [h40, List.length_map, List.length_take]
      omega
  · intro candles i hi hn
    rw [pin_check_signal, if_pos (by omega)]

theorem getD_mem_of_lt {α : Type} (l : List α) (d : α) (k : Nat) (hk : k < l.length) :
    l.getD k d ∈ l := by
  rw [List.getD_eq_getElem l d hk]
  exact List.getElem_mem hk

theorem close_getD_pos (candles : List Candle) (l : List Candle) (hsub : l ⊆ candles)
    (hpos : ∀ c ∈ candles, 0 < c.close) (k : Nat)
    (hk : k < (l.map (·.close)).length) : 0 < (l.map (·.close)).getD k 0 := by
  obtain ⟨c, hc, hval⟩ := List.mem_map.mp (getD_mem_of_lt (l.map (·.close)) 0 k hk)
  rw [← hval]
  exact hpos c (hsub hc)

theorem pin_wick_pos : (0 : ℚ) < pinDefaults.wick_mult := by
  rw [show pinDefaults.wick_mult = 5 from rfl]
  norm_num

theorem pin_ite_sound (c : Candle) (candles : List Candle) (i : Nat) (body2 : ℚ)
    (hb2 : 0 < body2) (s : RawSignal)
    (h : (if pinDefaults.wick_mult ≤ (min c.open_ c.close - c.low) / body2 ∧
            pin_is_downtrend pinDefaults candles i = true then
          some (⟨Dir.long, c.close, c.low, "pin_hammer", "pin_bar"⟩ : RawSignal)
        else if pinDefaults.wick_mult ≤ (c.high - max c.open_ c.close) / body2 ∧
            pin_is_uptrend pinDefaults candles i = true then
          some (⟨Dir.short, c.close, c.high, "pin_shooting_star", "pin_bar"⟩ : RawSignal)
        else none) = some s) :
    (s.direction = Dir.long → s.stop_loss < s.entry_price) ∧
    (s.direction = Dir.short → s.entry_price < s.stop_loss) := by
  split at h
  next hcond =>
    have hs := (Option.some_injective _ h).symm
    subst hs
    have hdiv : 0 < (min c.open_ c.close - c.low) / body2 :=
      lt_of_lt_of_le pin_wick_pos hcond.1
    have hwick : 0 < min c.open_ c.close - c.low := by
      rcases div_pos_iff.mp hdiv with ⟨hn, _⟩ | ⟨_, hd⟩
      · exact hn
      · exact absurd hb2 (not_lt.mpr (le_of_lt hd))
    refine ⟨fun _ => ?_, fun hd => Dir.noConfusion hd⟩
    show c.low < c.close
    calc c.low < min c.open_ c.close := by linarith
      _ ≤ c.close := min_le_right _ _
  next =>
    split at h
    next hcond =>
      have hs := (Option.some_injective _ h).symm
      subst hs
      have hdiv : 0 < (c.high - max c.open_ c.close) / body2 :=
        lt_of_lt_of_le pin_wick_pos hcond.1
      have hwick : 0 < c.high - max c.open_ c.close := by
        rcases div_pos_iff.mp hdiv with ⟨hn, _⟩ | ⟨_, hd⟩
        · exact hn
        · exact absurd hb2 (not_lt.mpr (le_of_lt hd))
      refine ⟨fun hd => Dir.noConfusion hd, fun _ => ?_⟩
      show c.close < c.high
      calc c.close ≤ max c.open_ c.close := le_max_right _ _
        _ < c.high := by linarith
    next => cases h

theorem pin_stop_sound (candles : List Candle) (i : Nat) (s : RawSignal)
    (h : pin_check_signal pinDefaults candles i = some s) :
    (s.direction = Dir.long → s.stop_loss < s.entry_price) ∧
    (s.direction = Dir.short → s.entry_price < s.stop_loss) := by
  simp only [pin_check_signal] at h
  split at h
  · cases h
  split at h
  next htr => cases h
  next htr =>
    split at h
    · cases h
    next =>
      have htr2 : 0 < (candles.getD i default).high - (candles.getD i default).low :=
        lt_of_not_le htr
      split at h
      next hb0 =>
        exact pin_ite_sound (candles.getD i default) candles i _ (by positivity) s h
      next hb0 =>
        exact pin_ite_sound (candles.getD i default) candles i _
          (lt_of_le_of_ne (abs_nonneg _) (Ne.symm hb0)) s h

theorem ma90_stop_sound (candles : List Candle) (i : Nat) (s : RawSignal)
    (hpos : ∀ c ∈ candles, 0 < c.close)
    (h : ma90_check_signal ma90Defaults candles i = some s) :
    (s.direction = Dir.long → s.stop_loss < s.entry_price) ∧
    (s.direction = Dir.short → s.entry_price < s.stop_loss) := by
  simp only [ma90_check_signal] at h
  split at h
  · cases h
  split at h
  next hlen => cases h
  next hlen =>
    have hcp : 0 < ((candles.take (i + 1)).map (·.close)).getD
        (((candles.take (i + 1)).map (·.close)).length - 1) 0 := by
      refine close_getD_pos candles _ (List.take_subset _ _) hpos _ ?_
      omega
    split at h
    · cases h
    split at h
    · cases h
    split at h
    next =>
      have hs := (Option.some_injective _ h).symm
      subst hs
      refine ⟨fun _ => ?_, fun hd => Dir.noConfusion hd⟩
      show _ * (1 - ma90Defaults.stop_loss_pct) < _
      rw [show ma90Defaults.stop_loss_pct = 1/40 from rfl]
      linarith
    next =>
      split at h
      next =>
        have hs := (Option.some_injective _ h).symm
        subst hs
        refine ⟨fun hd => Dir.noConfusion hd, fun _ => ?_⟩
        show _ < _ * (1 + ma90Defaults.stop_loss_pct)
        rw [show ma90Defaults.stop_loss_pct = 1/40 from rfl]
        linarith
      next => cases h

theorem rsi_ite_sound (cp ma prev_rsi cur_rsi : ℚ) (hcp : 0 < cp) (s : RawSignal)
    (h : (if ma < cp ∧ prev_rsi < rsiDefaults.oversold ∧ rsiDefaults.oversold ≤ cur_rsi then
          some (⟨Dir.long, cp, cp * (1 - rsiDefaults.stop_loss_pct),
            "rsi_pullback_long", "rsi_pullback"⟩ : RawSignal)
        else if cp < ma ∧ rsiDefaults.overbought < prev_rsi ∧ cur_rsi ≤ rsiDefaults.overbought then
          some (⟨Dir.short, cp, cp * (1 + rsiDefaults.stop_loss_pct),
            "rsi_pullback_short", "rsi_pullback"⟩ : RawSignal)
        else none) = some s) :
    (s.direction = Dir.long → s.stop_loss < s.entry_price) ∧
    (s.direction = Dir.short → s.entry_price < s.stop_loss) := by
  split at h
  next =>
    have hs := (Option.some_injective _ h).symm
    subst hs
    refine ⟨fun _ => ?_, fun hd => Dir.noConfusion hd⟩
    show cp * (1 - rsiDefaults.stop_loss_pct) < cp
    rw [show rsiDefaults.stop_loss_pct = 1/40 from rfl]
    linarith
  next =>
    split at h
    next =>
      have hs := (Option.some_injective _ h).symm
      subst hs
      refine ⟨fun hd => Dir.noConfusion hd, fun _ => ?_⟩
      show cp < cp * (1 + rsiDefaults.stop_loss_pct)
      rw [show rsiDefaults.stop_loss_pct = 1/40 from rfl]
      linarith
    next => cases h

theorem rsi_stop_sound (candles : List Candle) (i : Nat) (s : RawSignal)
    (hpos : ∀ c ∈ candles, 0 < c.close)
    (h : rsi_check_signal rsiDefaults candles i = some s) :
    (s.direction = Dir.long → s.stop_loss < s.entry_price) ∧
    (s.direction = Dir.short → s.entry_price < s.stop_loss) := by
  simp only [rsi_check_signal] at h
  split at h
  · cases h
  split at h
  next hlen => cases h
  next hlen =>
    have hcp : 0 < ((candles.take (i + 1)).map (·.close)).getD
        (((candles.take (i + 1)).map (·.close)).length - 1) 0 := by
      refine close_getD_pos candles _ (List.take_subset _ _) hpos _ ?_
      have h134 : rsiDefaults.ma_period + rsiDefaults.rsi_period = 134 := rfl
      rw [h134] at hlen
      omega
    split at h
    · cases h
    exact rsi_ite_sound _ _ _ _ hcp s h

theorem macd_stop_sound (candles : List Candle) (i : Nat) (s : RawSignal)
    (hpos : ∀ c ∈ candles, 0 < c.close)
    (h : macd_check_signal macdDefaults candles i = some s) :
    (s.direction = Dir.long → s.stop_loss < s.entry_price) ∧
    (s.direction = Dir.short → s.entry_price < s.stop_loss) := by
  simp only [macd_check_signal] at h
  split at h
  · cases h
  split at h
  next hlen => cases h
  next hlen =>
    have hcp : 0 < ((candles.take (i + 1)).map (·.close)).getD
        (((candles.take (i + 1)).map (·.close)).length - 1) 0 := by
      refine close_getD_pos candles _ (List.take_subset _ _) hpos _ ?_
      rw [macd_dif_length] at hlen
      omega
    split at h
    next =>
      have hs := (Option.some_injective _ h).symm
      subst hs
      refine ⟨fun hd => Dir.noConfusion hd, fun _ => ?_⟩
      show _ < _ * (1 + macdDefaults.stop_loss_pct)
      rw [show macdDefaults.stop_loss_pct = 3/100 from rfl]
      linarith
    next =>
      split at h
      next =>
        have hs := (Option.some_injective _ h).symm
        subst hs
        refine ⟨fun _ => ?_, fun hd => Dir.noConfusion hd⟩
        show _ * (1 - macdDefaults.stop_loss_pct) < _
        rw [show macdDefaults.stop_loss_pct = 3/100 from rfl]
        linarith
      next => cases h

theorem bollRow_ordered (closes : List ℚ) (period : Nat) (j : Nat) :
    (bollRow closes period j).2.1 ≤ (bollRow closes period j).1 ∧
    (bollRow closes period j).2.2.1 ≤ (bollRow closes period j).2.1 := by
  rw [bollRow]
  split
  · exact ⟨le_refl 0, le_refl 0⟩
  · have hs := Rat.sqrt_nonneg
      ((((closes.drop (j + 1 - period)).take period).map
        (fun c => (c - ((closes.drop (j + 1 - period)).take period).sum / (period : ℚ)) ^ 2)).sum /
        (period : ℚ))
    constructor
    · show _ ≤ _ + 2 * _
      linarith
    · show _ - 2 * _ ≤ _
      linarith

theorem bb_bands_ordered (closes : List ℚ) (period : Nat) (i : Nat) :
    (calc_bollinger_series closes period).middle.getD i 0 ≤
      (calc_bollinger_series closes period).upper.getD i 0 ∧
    (calc_bollinger_series closes period).lower.getD i 0 ≤
      (calc_bollinger_series closes period).middle.getD i 0 := by
  rw [calc_bollinger_series]
  simp only
  by_cases hi : i < closes.length
  · have hup : (((List.range closes.length).map (bollRow closes period)).map (·.1)).getD i 0 =
        (bollRow closes period i).1 := by
      rw [List.map_map, List.getD_eq_getElem _ 0
        (by rw [List.length_map, List.length_range]; exact hi)]
      simp [List.getElem_map, List.getElem_range]
    have hmid : (((List.range closes.length).map (bollRow closes period)).map (·.2.1)).getD i 0 =
        (bollRow closes period i).2.1 := by
      rw [List.map_map, List.getD_eq_getElem _ 0
        (by rw [List.length_map, List.length_range]; exact hi)]
      simp [List.getElem_map, List.getElem_range]
    have hlo : (((List.range closes.length).map (bollRow closes period)).map (·.2.2.1)).getD i 0 =
        (bollRow closes period i).2.2.1 := by
      rw [List.map_map, List.getD_eq_getElem _ 0
        (by rw [List.length_map, List.length_range]; exact hi)]
      simp [List.getElem_map, List.getElem_range]
    rw [hup, hmid, hlo]
    exact bollRow_ordered closes period i
  · have hlen : ∀ f : ℚ × ℚ × ℚ × ℚ → ℚ,
        (((List.range closes.length).map (bollRow closes period)).map f).getD i 0 = 0 := by
      intro f
      apply List.getD_eq_default
      rw [List.length_map, List.length_map, List.length_range]
      omega
    rw [hlen, hlen, hlen]
    exact ⟨le_refl 0, le_refl 0⟩

theorem bb_ite_sound (cp up mid lo ma : ℚ) (trendOn : Prop) [Decidable trendOn]
    (hmu : mid ≤ up) (hlm : lo ≤ mid) (s : RawSignal)
    (h : (if trendOn ∧ up < cp ∧ cp < ma then none
        else if trendOn ∧ cp < lo ∧ ma < cp then none
        else if up < cp then
          some (⟨Dir.long, cp, mid, "bb_squeeze_long", "bb_squeeze"⟩ : RawSignal)
        else if cp < lo then
          some (⟨Dir.short, cp, mid, "bb_squeeze_short", "bb_squeeze"⟩ : RawSignal)
        else none) = some s) :
    (s.direction = Dir.long → s.stop_loss < s.entry_price) ∧
    (s.direction = Dir.short → s.entry_price < s.stop_loss) := by
  split at h
  · cases h
  split at h
  · cases h
  split at h
  next hup =>
    have hs := (Option.some_injective _ h).symm
    subst hs
    exact ⟨fun _ => lt_of_le_of_lt hmu hup, fun hd => Dir.noConfusion hd⟩
  next =>
    split at h
    next hlo =>
      have hs := (Option.some_injective _ h).symm
      subst hs
      exact ⟨fun hd => Dir.noConfusion hd, fun _ => lt_of_lt_of_le hlo hlm⟩
    next => cases h

theorem bb_stop_sound (candles : List Candle) (i : Nat) (s : RawSignal)
    (h : bb_check_signal bbDefaults candles i = some s) :
    (s.direction = Dir.long → s.stop_loss < s.entry_price) ∧
    (s.direction = Dir.short → s.entry_price < s.stop_loss) := by
  simp only [bb_check_signal] at h
  split at h
  · cases h
  split at h
  · cases h
  split at h
  · cases h
  split at h
  · cases h
  have hband := bb_bands_ordered ((candles.take (i + 1)).map (·.close)) bbDefaults.bb_period i
  split at h <;>
    [skip; skip] <;>
    (split at h
     · cases h) <;>
    exact bb_ite_sound _ _ _ _ _ _ hband.1 hband.2 s h

set_option maxHeartbeats 1000000 in
set_option maxRecDepth 4000 in
/-- C6 counterexample: the claim as frozen (only the OHLC ordering
hypothesis, no positivity of prices) fails on the code: on 126 sane flat
bars with negative closes the MA breakout evaluator with its default
parameters emits a long signal whose stop (entry times 0.975) lies above
the negative entry price. -/
theorem c6_counterexample :
    (∀ c ∈ c6Cex, c.low ≤ min c.open_ c.close ∧ max c.open_ c.close ≤ c.high) ∧
    ma90_check_signal ma90Defaults c6Cex 125 =
      some ⟨Dir.long, -1, -39/40, "ma90_breakout_up", "ma90"⟩ ∧
    ¬ ((-39/40 : ℚ) < -1) := by
  refine ⟨?_, ?_, by norm_num⟩
  · intro c hc
    rw [c6Cex] at hc
    rcases List.mem_append.mp hc with h | h
    · rw [List.eq_of_mem_replicate h]
      norm_num [flatBar]
    · rcases List.mem_cons.mp h with h | h
      · rw [h]
        norm_num [flatBar]
      · rw [List.eq_of_mem_replicate h]
        norm_num [flatBar]
  · rw [ma90_check_signal, if_neg (by norm_num [ma90_startup])]
    have hm : ma90Defaults.ma_period = 120 := rfl
    have hc : ma90Defaults.confirm_bars = 3 := rfl
    have hsl : ma90Defaults.stop_loss_pct = 1/40 := rfl
    simp only [hm, hc, hsl]
    have hLlit : (c6Cex.take (125 + 1)).map (·.close) = c6Closes := rfl
    simp only [hLlit]
    have hlen : c6Closes.length = 126 := rfl
    rw [if_neg (by rw [hlen]; norm_num)]
    have hma : calc_sma_series c6Closes 120 =
        List.replicate 119 0 ++
          [-100, -100, -100, -605/6, -12001/120, -5951/60, -11803/120] := by
      rw [calc_sma_series, if_neg (by rw [hlen]; norm_num)]
      have hw0 : (c6Closes.take 120).sum = -12000 := by
        rw [show c6Closes.take 120 = List.replicate 120 (-100 : ℚ) from rfl,
          List.sum_replicate]
        norm_num
      have hdrop : c6Closes.drop 120 = [-100, -100, -200, -1, -1, -1] := rfl
      have hwin : smaWindows (-12000) c6Closes [-100, -100, -200, -1, -1, -1] =
          [-12000, -12000, -12100, -12001, -11902, -11803] := by
        norm_num [smaWindows, c6Closes]
      norm_num [hw0, hdrop, hwin]
    simp only [hma]
    have hcm : (List.replicate 119 (0:ℚ) ++
        [-100, -100, -100, -605/6, -12001/120, -5951/60, -11803/120]).getD
        ((List.replicate 119 (0:ℚ) ++
          [-100, -100, -100, -605/6, -12001/120, -5951/60, -11803/120]).length - 1) 0 =
        -11803/120 := rfl
    rw [hcm]
    rw [if_neg (by norm_num)]
    rw [hlen]
    rw [if_neg (by norm_num)]
    have hcp : c6Closes.getD (126 - 1) 0 = -1 := rfl
    have hpreC : c6Closes.getD (126 - 3 - 1) 0 = -200 := rfl
    have hpreM : (List.replicate 119 (0:ℚ) ++
        [-100, -100, -100, -605/6, -12001/120, -5951/60, -11803/120]).getD (126 - 3 - 1) 0 =
        -605/6 := rfl
    rw [hpreC, hpreM, hcp]
    have hrc : c6Closes.drop (126 - 3) = [-1, -1, -1] := rfl
    have hrm : (List.replicate 119 (0:ℚ) ++
        [-100, -100, -100, -605/6, -12001/120, -5951/60, -11803/120]).drop
        ((List.replicate 119 (0:ℚ) ++
          [-100, -100, -100, -605/6, -12001/120, -5951/60, -11803/120]).length - 3) =
        [-12001/120, -5951/60, -11803/120] := rfl
    rw [hrc, hrm]
    rw [if_pos]
    · norm_num
    · constructor
      · norm_num
      · norm_num [List.zip, List.zipWith, List.all]

/-- C6 (amended): for every candle sequence in which every bar satisfies
low ≤ min(open, close), max(open, close) ≤ high and additionally has a
positive close, every raw signal emitted by any of the five evaluators
with default parameters satisfies: long implies stop_loss < entry_price
and short implies stop_loss > entry_price. -/
theorem c6_stop_invariant_amended (candles : List Candle) (i : Nat)
    (hsane : ∀ c ∈ candles, c.low ≤ min c.open_ c.close ∧
      max c.open_ c.close ≤ c.high ∧ 0 < c.close)
    (s : RawSignal)
    (h : pin_check_signal pinDefaults candles i = some s ∨
         macd_check_signal macdDefaults candles i = some s ∨
         ma90_check_signal ma90Defaults candles i = some s ∨
         rsi_check_signal rsiDefaults candles i = some s ∨
         bb_check_signal bbDefaults candles i = some s) :
    (s.direction = Dir.long → s.stop_loss < s.entry_price) ∧
    (s.direction = Dir.short → s.entry_price < s.stop_loss) := by
  have hpos : ∀ c ∈ candles, 0 < c.close := fun c hc => (hsane c hc).2.2
  rcases h with h | h | h | h | h
  · exact pin_stop_sound candles i s h
  · exact macd_stop_sound candles i s hpos h
  · exact ma90_stop_sound candles i s hpos h
  · exact rsi_stop_sound candles i s hpos h
  · exact bb_stop_sound candles i s h

theorem sumSizes_nil : sumSizes [] = 0 := rfl

theorem sumSizes_cons (p : Position) (l : List Position) :
    sumSizes (p :: l) = p.position_size + sumSizes l := by
  rw [sumSizes, List.map_cons, List.sum_cons, sumSizes]

theorem sumSizes_append (l1 l2 : List Position) :
    sumSizes (l1 ++ l2) = sumSizes l1 + sumSizes l2 := by
  rw [sumSizes, List.map_append, List.sum_append, sumSizes, sumSizes]

theorem sumSizes_filter_le (l : List Position) (p : Position → Bool)
    (h : ∀ x ∈ l, 0 < x.position_size) : sumSizes (l.filter p) ≤ sumSizes l := by
  induction l with
  | nil => exact le_refl 0
  | cons a l ih =>
    have ha : 0 < a.position_size := h a (List.mem_cons_self a l)
    have ih2 := ih (fun x hx => h x (List.mem_cons_of_mem a hx))
    rw [List.filter_cons]
    split
    · rw [sumSizes_cons, sumSizes_cons]
      linarith
    · rw [sumSizes_cons]
      linarith

theorem executeSignal_opens (cfg : BTConfig) (st : BTState) (signal : ResSignal)
    (i : Nat) (current : Candle) :
    ((executeSignal cfg st signal i current).open_positions = st.open_positions ∧
      ¬ 0 < (if maxAllowed cfg < sumSizes st.open_positions + tierSize cfg signal then
          max 0 (maxAllowed cfg - sumSizes st.open_positions)
        else tierSize cfg signal)) ∨
    ∃ pos : Position,
      (executeSignal cfg st signal i current).open_positions = st.open_positions ++ [pos] ∧
      pos.position_size =
        (if maxAllowed cfg < sumSizes st.open_positions + tierSize cfg signal then
          max 0 (maxAllowed cfg - sumSizes st.open_positions)
        else tierSize cfg signal) ∧
      0 < pos.position_size := by
  rw [executeSignal]
  by_cases hc : maxAllowed cfg < sumSizes st.open_positions + tierSize cfg signal
  · rw [if_pos hc]
    split
    next hpos => exact Or.inr ⟨_, rfl, rfl, hpos⟩
    next hpos => exact Or.inl ⟨rfl, hpos⟩
  · rw [if_neg hc]
    split
    next hpos => exact Or.inr ⟨_, rfl, rfl, hpos⟩
    next hpos => exact Or.inl ⟨rfl, hpos⟩

theorem capInv_executeSignal (cfg : BTConfig) (st : BTState) (signal : ResSignal)
    (i : Nat) (current : Candle) (h : capInv cfg st) :
    capInv cfg (executeSignal cfg st signal i current) := by
  rcases executeSignal_opens cfg st signal i current with heq | ⟨pos, heq, hsz, hp⟩
  · exact ⟨fun p hp => h.1 p (by rw [heq.1] at hp; exact hp), by rw [heq.1]; exact h.2⟩
  · constructor
    · intro p hmem
      rw [heq] at hmem
      rcases List.mem_append.mp hmem with hm | hm
      · exact h.1 p hm
      · rw [List.mem_singleton.mp hm]
        exact hp
    · rw [heq, sumSizes_append, sumSizes_cons, sumSizes_nil]
      by_cases hc : maxAllowed cfg < sumSizes st.open_positions + tierSize cfg signal
      · rw [if_pos hc] at hsz
        rcases max_choice 0 (maxAllowed cfg - sumSizes st.open_positions) with hm | hm
        · rw [hm] at hsz
          exact absurd hp (by rw [hsz]; exact lt_irrefl 0)
        · rw [hm] at hsz
          rw [hsz]
          linarith
      · rw [if_neg hc] at hsz
        rw [hsz]
        have := h.2
        linarith [not_lt.mp hc]

theorem stepOpen_capInv (cfg : BTConfig) (st : BTState) (i : Nat) (current : Candle)
    (h : capInv cfg st) : capInv cfg (stepOpen cfg st i current) := by
  rw [stepOpen]
  cases st.pending_signal with
  | none => exact h
  | some signal =>
    dsimp only
    by_cases hi : 0 < i
    · rw [if_pos hi]
      exact capInv_executeSignal cfg st signal i current h
    · rw [if_neg hi]
      exact h

theorem stepExits_capInv (cfg : BTConfig) (st : BTState) (i : Nat) (current : Candle)
    (h : capInv cfg st) : capInv cfg (stepExits cfg st i current) := by
  rw [stepExits]
  constructor
  · intro p hmem
    exact h.1 p (List.mem_of_mem_filter hmem)
  · exact le_trans (sumSizes_filter_le _ _ h.1) h.2

theorem stepSignals_opens (cfg : BTConfig) (st : BTState) (i : Nat) (current : Candle) :
    (stepSignals cfg st i current).open_positions = st.open_positions := by
  rw [stepSignals]
  split
  · split
    · split
      · rfl
      · rfl
    · rfl
  · rfl

theorem capInv_of_opens_eq (cfg : BTConfig) (s1 s2 : BTState)
    (h : s2.open_positions = s1.open_positions) (h1 : capInv cfg s1) : capInv cfg s2 := by
  rw [capInv, h]
  exact h1

theorem stepBar_capInv (cfg : BTConfig) (st : BTState) (i : Nat)
    (h : capInv cfg st) : capInv cfg (stepBar cfg st i) := by
  rw [stepBar]
  have h1 := stepOpen_capInv cfg st i (cfg.candles.getD i default) h
  have h2 := stepExits_capInv cfg _ i (cfg.candles.getD i default) h1
  by_cases hw : i < maxStartup cfg.strategies
  · rw [if_pos hw]
    exact h2
  · rw [if_neg hw]
    refine capInv_of_opens_eq cfg _ _ ?_ h2
    exact stepSignals_opens cfg _ i (cfg.candles.getD i default)

theorem capInv_stateAfter (cfg : BTConfig) (hcap : 0 ≤ maxAllowed cfg) :
    ∀ n : Nat, capInv cfg (stateAfter cfg n) := by
  intro n
  induction n with
  | zero => exact ⟨fun p hp => absurd hp (List.not_mem_nil p), hcap⟩
  | succ n ih => exact stepBar_capInv cfg _ n ih

/-- C2: at every bar of every backtest run the total notional of the open
positions never exceeds initial capital times max_total_pct over 100; a
pending signal that would break the cap is sized down to exactly the
remaining headroom, and with no headroom left it is not opened at all. -/
theorem c2_exposure_cap (cfg : BTConfig)
    (hcap : 0 ≤ cfg.initial_capital * cfg.rules.max_total_pct) :
    (∀ n : Nat, sumSizes (stateAfter cfg n).open_positions ≤
      cfg.initial_capital * cfg.rules.max_total_pct / 100) ∧
    (∀ (st : BTState) (signal : ResSignal) (i : Nat) (current : Candle),
      maxAllowed cfg < sumSizes st.open_positions + tierSize cfg signal →
      (maxAllowed cfg - sumSizes st.open_positions ≤ 0 →
        (executeSignal cfg st signal i current).open_positions = st.open_positions) ∧
      (0 < maxAllowed cfg - sumSizes st.open_positions →
        ∃ pos : Position, (executeSignal cfg st signal i current).open_positions =
          st.open_positions ++ [pos] ∧
          pos.position_size = maxAllowed cfg - sumSizes st.open_positions)) := by
  have hcap2 : 0 ≤ maxAllowed cfg := by
    rw [maxAllowed]
    positivity
  constructor
  · intro n
    exact (capInv_stateAfter cfg hcap2 n).2
  · intro st signal i current hover
    constructor
    · intro hzero
      rcases executeSignal_opens cfg st signal i current with heq | ⟨pos, heq, hsz, hp⟩
      · exact heq.1
      · exfalso
        rw [if_pos hover, max_eq_left hzero] at hsz
        rw [hsz] at hp
        exact lt_irrefl 0 hp
    · intro hroom
      rcases executeSignal_opens cfg st signal i current with heq | ⟨pos, heq, hsz, hp⟩
      · exfalso
        rw [if_pos hover, max_eq_right (le_of_lt hroom)] at heq
        exact heq.2 hroom
      · rw [if_pos hover, max_eq_right (le_of_lt hroom)] at hsz
        exact ⟨pos, heq, hsz⟩

theorem dir_long_ne_short : ¬ (Dir.long = Dir.short) := fun h => Dir.noConfusion h

theorem dir_short_ne_long : ¬ (Dir.short = Dir.long) := fun h => Dir.noConfusion h

theorem posEntryOk_mono (cfg : BTConfig) (s1 s2 : List (ResSignal × Int × ℚ))
    (hsub : ∀ x ∈ s1, x ∈ s2) (p : Position) (h : posEntryOk cfg s1 p) :
    posEntryOk cfg s2 p := by
  obtain ⟨h1, h2, h3, h4, sr, hmem, hrest⟩ := h
  exact ⟨h1, h2, h3, h4, sr, hsub sr hmem, hrest⟩

theorem tradeEntryOk_mono (cfg : BTConfig) (s1 s2 : List (ResSignal × Int × ℚ))
    (hsub : ∀ x ∈ s1, x ∈ s2) (t : Trade) (h : tradeEntryOk cfg s1 t) :
    tradeEntryOk cfg s2 t := by
  obtain ⟨j, h1, h2, h3, h4, sr, hmem, hrest⟩ := h
  exact ⟨j, h1, h2, h3, h4, sr, hsub sr hmem, hrest⟩

theorem tradeEntryOk_of_pos (cfg : BTConfig) (sigs : List (ResSignal × Int × ℚ))
    (p : Position) (e : ℚ) (r : ExitReason) (ts : Int) (h : posEntryOk cfg sigs p) :
    tradeEntryOk cfg sigs (close_position p e r ts) := by
  obtain ⟨h1, h2, h3, h4, sr, hmem, hrest⟩ := h
  exact ⟨p.entry_index, h1, h2, h3, h4, sr, hmem, hrest⟩

theorem executeSignal_shape (cfg : BTConfig) (st : BTState) (signal : ResSignal)
    (i : Nat) (current : Candle) :
    (executeSignal cfg st signal i current).closed_trades = st.closed_trades ∧
    (executeSignal cfg st signal i current).all_signals = st.all_signals ∧
    (executeSignal cfg st signal i current).pending_signal = none ∧
    ((executeSignal cfg st signal i current).open_positions = st.open_positions ∨
      ∃ sz : ℚ, (executeSignal cfg st signal i current).open_positions =
        st.open_positions ++
        [{ direction := signal.direction, entry_price := current.open_,
           entry_ts := current.ts, entry_index := i, position_size := sz,
           stop_loss := signal.stop_loss, initial_stop_loss := signal.stop_loss,
           strategies := signal.strategies, enter_tag := signal.enter_tag,
           strength := signal.strength, leverage := cfg.leverage }]) := by
  rw [executeSignal]
  by_cases hc : maxAllowed cfg < sumSizes st.open_positions + tierSize cfg signal
  · rw [if_pos hc]
    split
    · exact ⟨rfl, rfl, rfl, Or.inr ⟨_, rfl⟩⟩
    · exact ⟨rfl, rfl, rfl, Or.inl rfl⟩
  · rw [if_neg hc]
    split
    · exact ⟨rfl, rfl, rfl, Or.inr ⟨_, rfl⟩⟩
    · exact ⟨rfl, rfl, rfl, Or.inl rfl⟩

theorem stepOpen_lag (cfg : BTConfig) (st : BTState) (i : Nat)
    (hi : i < cfg.candles.length) (h : lagInv cfg i st) :
    (∀ p ∈ (stepOpen cfg st i (cfg.candles.getD i default)).open_positions,
      posEntryOk cfg st.all_signals p) ∧
    (stepOpen cfg st i (cfg.candles.getD i default)).closed_trades = st.closed_trades ∧
    (stepOpen cfg st i (cfg.candles.getD i default)).all_signals = st.all_signals ∧
    (stepOpen cfg st i (cfg.candles.getD i default)).pending_signal = none := by
  rw [stepOpen]
  cases hp : st.pending_signal with
  | none => exact ⟨h.1, rfl, rfl, hp⟩
  | some s =>
    dsimp only
    obtain ⟨h1i, sr, hsrmem, hsr1, hsr2⟩ := h.2.2 s hp
    rw [if_pos (show 0 < i from h1i)]
    obtain ⟨hct, hsig, hpend, hop⟩ :=
      executeSignal_shape cfg st s i (cfg.candles.getD i default)
    refine ⟨?_, hct, hsig, hpend⟩
    intro p hmem
    rcases hop with heq | ⟨sz, heq⟩
    · exact h.1 p (by rw [heq] at hmem; exact hmem)
    · rw [heq] at hmem
      rcases List.mem_append.mp hmem with hm | hm
      · exact h.1 p hm
      · rw [List.mem_singleton.mp hm]
        exact ⟨h1i, hi, rfl, rfl, sr, hsrmem, hsr2, by rw [hsr1], by rw [hsr1],
          by rw [hsr1], by rw [hsr1]⟩

theorem stepExits_lag (cfg : BTConfig) (st : BTState) (i : Nat) (current : Candle)
    (hop : ∀ p ∈ st.open_positions, posEntryOk cfg st.all_signals p)
    (hct : ∀ t ∈ st.closed_trades, tradeEntryOk cfg st.all_signals t) :
    (∀ p ∈ (stepExits cfg st i current).open_positions,
      posEntryOk cfg st.all_signals p) ∧
    (∀ t ∈ (stepExits cfg st i current).closed_trades,
      tradeEntryOk cfg st.all_signals t) ∧
    (stepExits cfg st i current).all_signals = st.all_signals ∧
    (stepExits cfg st i current).pending_signal = st.pending_signal := by
  rw [stepExits]
  refine ⟨?_, ?_, rfl, rfl⟩
  · intro p hmem
    exact hop p (List.mem_of_mem_filter hmem)
  · intro t hmem
    rcases List.mem_append.mp hmem with hm | hm
    · exact hct t hm
    · obtain ⟨p, hpmem, hval⟩ := List.mem_filterMap.mp hm
      obtain ⟨e, _, hfe⟩ := Option.map_eq_some'.mp hval
      rw [← hfe]
      exact tradeEntryOk_of_pos cfg st.all_signals p e.1 e.2 current.ts (hop p hpmem)

theorem stepSignals_lag (cfg : BTConfig) (st : BTState) (i : Nat) (current : Candle)
    (hpend : st.pending_signal = none) :
    (stepSignals cfg st i current).open_positions = st.open_positions ∧
    (stepSignals cfg st i current).closed_trades = st.closed_trades ∧
    (∀ x ∈ st.all_signals, x ∈ (stepSignals cfg st i current).all_signals) ∧
    (∀ s, (stepSignals cfg st i current).pending_signal = some s →
      ∃ sr ∈ (stepSignals cfg st i current).all_signals,
        sr.1 = s ∧ sr.2.1 = current.ts) := by
  rw [stepSignals]
  split
  next res hres =>
    split
    · split
      · refine ⟨rfl, rfl, fun x hx => hx, ?_⟩
        intro s hs
        rw [hpend] at hs
        cases hs
      · refine ⟨rfl, rfl, fun x hx => List.mem_append_left _ hx, ?_⟩
        intro s hs
        have : res = s := Option.some_injective _ hs
        subst this
        exact ⟨(res, current.ts, current.close),
          List.mem_append_right _ (List.mem_singleton.mpr rfl), rfl, rfl⟩
    · refine ⟨rfl, rfl, fun x hx => hx, ?_⟩
      intro s hs
      rw [hpend] at hs
      cases hs
  next =>
    refine ⟨rfl, rfl, fun x hx => hx, ?_⟩
    intro s hs
    rw [hpend] at hs
    cases hs

theorem appendEquity_shape (st : BTState) (current : Candle) :
    (appendEquity st current).open_positions = st.open_positions ∧
    (appendEquity st current).closed_trades = st.closed_trades ∧
    (appendEquity st current).all_signals = st.all_signals ∧
    (appendEquity st current).pending_signal = st.pending_signal :=
  ⟨rfl, rfl, rfl, rfl⟩

theorem stepBar_lagInv (cfg : BTConfig) (st : BTState) (i : Nat)
    (hi : i < cfg.candles.length) (h : lagInv cfg i st) :
    lagInv cfg (i + 1) (stepBar cfg st i) := by
  rw [stepBar]
  obtain ⟨hop1, hct1, hsig1, hpend1⟩ := stepOpen_lag cfg st i hi h
  set st1 := stepOpen cfg st i (cfg.candles.getD i default) with hst1
  obtain ⟨hop2, hct2, hsig2, hpend2⟩ := stepExits_lag cfg st1 i (cfg.candles.getD i default)
    (by rw [hsig1]; exact hop1) (by rw [hsig1]; intro t ht; exact h.2.1 t (by rwa [hct1] at ht))
  set st2 := stepExits cfg st1 i (cfg.candles.getD i default) with hst2
  have hpend2n : st2.pending_signal = none := by rw [hpend2, hpend1]
  by_cases hw : i < maxStartup cfg.strategies
  · rw [if_pos hw]
    refine ⟨?_, ?_, ?_⟩
    · intro p hp
      rw [(appendEquity_shape st2 _).1] at hp
      exact posEntryOk_mono cfg st2.all_signals _ (fun x hx => by
        rw [(appendEquity_shape st2 _).2.2.1]; exact hx) p
        (by rw [hsig2, hsig1] at *; exact hop2 p hp)
    · intro t ht
      rw [(appendEquity_shape st2 _).2.1] at ht
      exact tradeEntryOk_mono cfg st2.all_signals _ (fun x hx => by
        rw [(appendEquity_shape st2 _).2.2.1]; exact hx) t
        (by rw [hsig2, hsig1] at *; exact hct2 t ht)
    · intro s hs
      rw [(appendEquity_shape st2 _).2.2.2, hpend2n] at hs
      cases hs
  · rw [if_neg hw]
    obtain ⟨hop3, hct3, hsub3, hpend3⟩ :=
      stepSignals_lag cfg st2 i (cfg.candles.getD i default) hpend2n
    set st3 := stepSignals cfg st2 i (cfg.candles.getD i default) with hst3
    refine ⟨?_, ?_, ?_⟩
    · intro p hp
      rw [(appendEquity_shape st3 _).1, hop3] at hp
      have hbase := hop2 p hp
      rw [hsig1] at hbase
      refine posEntryOk_mono cfg st.all_signals _ (fun x hx => by
        rw [(appendEquity_shape st3 _).2.2.1]
        refine hsub3 x ?_
        rw [hsig2, hsig1]
        exact hx) p hbase
    · intro t ht
      rw [(appendEquity_shape st3 _).2.1, hct3] at ht
      have hbase := hct2 t ht
      rw [hsig1] at hbase
      refine tradeEntryOk_mono cfg st.all_signals _ (fun x hx => by
        rw [(appendEquity_shape st3 _).2.2.1]
        refine hsub3 x ?_
        rw [hsig2, hsig1]
        exact hx) t hbase
    · intro s hs
      rw [(appendEquity_shape st3 _).2.2.2] at hs
      obtain ⟨sr, hmem, h1, h2⟩ := hpend3 s hs
      refine ⟨by omega, sr, ?_, h1, ?_⟩
      · rw [(appendEquity_shape st3 _).2.2.1]
        exact hmem
      · rw [h2]
        have : i + 1 - 1 = i := rfl
        rw [this]

theorem lagInv_stateAfter (cfg : BTConfig) :
    ∀ n : Nat, n ≤ cfg.candles.length → lagInv cfg n (stateAfter cfg n) := by
  intro n
  induction n with
  | zero =>
    intro _
    refine ⟨?_, ?_, ?_⟩
    · intro p hp
      cases hp
    · intro t ht
      cases ht
    · intro s hs
      cases hs
  | succ n ih =>
    intro hn
    exact stepBar_lagInv cfg _ n (by omega) (ih (by omega))

/-- C1: in every simulated run, every closed trade (and hence every
position, since every opened position ends as a closed trade) entered at
the open of some bar j with 1 ≤ j (never bar 0), j inside the candle
range, at exactly that bar's open price, and the signal log records a
resonance signal with matching direction, strength, tag and strategy list
at bar j - 1: the one-bar lag.  The same holds for every ok result of
run_backtest, whose trades and signal log are those of runCore. -/
theorem c1_one_bar_lag :
    (∀ cfg : BTConfig, ∀ t ∈ (runCore cfg).trades,
      tradeEntryOk cfg (runCore cfg).signals t) ∧
    (∀ (candles : List Candle) (strategies : List Strategy) (min_strength : Nat)
      (initial_capital : ℚ) (rules : PositionRules) (roi_table : List (Nat × ℚ))
      (leverage : ℚ) (r : BacktestResult),
      run_backtest candles strategies min_strength initial_capital rules roi_table
        leverage = Except.ok r →
      ∀ t ∈ r.trades,
        tradeEntryOk ⟨candles, strategies, min_strength, initial_capital, rules,
          roi_table, leverage⟩ r.signals t) := by
  have main : ∀ cfg : BTConfig, ∀ t ∈ (runCore cfg).trades,
      tradeEntryOk cfg (runCore cfg).signals t := by
    intro cfg t ht
    have hinv := lagInv_stateAfter cfg cfg.candles.length (le_refl _)
    rw [runCore, finalize] at ht
    rw [runCore, finalize]
    simp only at ht ⊢
    rcases List.mem_append.mp ht with hm | hm
    · exact hinv.2.1 t hm
    · obtain ⟨p, hpmem, hval⟩ := List.mem_map.mp hm
      rw [← hval]
      exact tradeEntryOk_of_pos cfg _ p _ _ _ (hinv.1 p hpmem)
  refine ⟨main, ?_⟩
  intro candles strategies min_strength initial_capital rules roi_table leverage r hr t ht
  rw [run_backtest] at hr
  split at hr
  · cases hr
  split at hr
  · cases hr
  have : r = runCore ⟨candles, strategies, min_strength, initial_capital, rules,
      roi_table, leverage⟩ := by
    injection hr.symm
  subst this
  exact main _ t ht

set_option maxHeartbeats 1000000 in
theorem c1_step0 : stepBar c1Cfg (initState c1Cfg) 0 = c1S1 := by
  norm_num [stepBar, stepOpen, stepExits, stepSignals, appendEquity, executeSignal,
    initState, c1Cfg, c1Strat, c1Candles, flatBar, maxStartup, calc_resonance,
    resonanceOf, calc_equity, checkExit, get_roi_target, roiSort, close_position,
    pnlPct, round2, sumSizes, maxAllowed, tierSize, tierPct, defaultRules,
    groupStopMax, groupStopMin, listMaxD, listMinD, List.insertionSort, c1S1,
    List.filterMap_cons, List.filter_cons, dir_long_ne_short, dir_short_ne_long,
    (show String.intercalate "+" ["t"] = "t" from rfl)]

set_option maxHeartbeats 1000000 in
theorem c1_step1 : stepBar c1Cfg c1S1 1 = c1S2 := by
  norm_num [stepBar, stepOpen, stepExits, stepSignals, appendEquity, executeSignal,
    initState, c1Cfg, c1Strat, c1Candles, flatBar, maxStartup, calc_resonance,
    resonanceOf, calc_equity, checkExit, get_roi_target, roiSort, close_position,
    pnlPct, round2, sumSizes, maxAllowed, tierSize, tierPct, defaultRules,
    groupStopMax, groupStopMin, listMaxD, listMinD, List.insertionSort, c1S1, c1S2,
    c1Pos, List.filterMap_cons, List.filter_cons, dir_long_ne_short, dir_short_ne_long,
    (show String.intercalate "+" ["t"] = "t" from rfl)]

set_option maxHeartbeats 1000000 in
theorem c1_step2 : stepBar c1Cfg c1S2 2 = c1S3 := by
  norm_num [stepBar, stepOpen, stepExits, stepSignals, appendEquity, executeSignal,
    initState, c1Cfg, c1Strat, c1Candles, flatBar, maxStartup, calc_resonance,
    resonanceOf, calc_equity, checkExit, get_roi_target, roiSort, close_position,
    pnlPct, round2, sumSizes, maxAllowed, tierSize, tierPct, defaultRules,
    groupStopMax, groupStopMin, listMaxD, listMinD, List.insertionSort, c1S2, c1S3,
    c1Pos, List.filterMap_cons, List.filter_cons, dir_long_ne_short, dir_short_ne_long,
    (show String.intercalate "+" ["t"] = "t" from rfl)]

theorem c1_run_trades : (runCore c1Cfg).trades = [c1Trade] := by
  have h3 : stateAfter c1Cfg 3 = stepBar c1Cfg (stepBar c1Cfg (stepBar c1Cfg
      (initState c1Cfg) 0) 1) 2 := rfl
  have hlen : c1Cfg.candles.length = 3 := rfl
  rw [runCore, hlen, h3, c1_step0, c1_step1, c1_step2]
  norm_num [finalize, close_position, pnlPct, round2, c1Pos, c1Trade, c1S3, c1Cfg,
    c1Candles, flatBar]

/-- C1 witness: a concrete three-bar run whose single closed trade entered
at the open of bar 1 from the signal recorded at bar 0. -/
theorem c1_one_bar_lag_witness :
    c1Trade ∈ (runCore c1Cfg).trades ∧
    tradeEntryOk c1Cfg (runCore c1Cfg).signals c1Trade := by
  have hmem : c1Trade ∈ (runCore c1Cfg).trades := by
    rw [c1_run_trades]
    exact List.mem_singleton.mpr rfl
  exact ⟨hmem, c1_one_bar_lag.1 c1Cfg c1Trade hmem⟩

/-- C3 witness: two long signals and one short resonate to long with
strength 2. -/
theorem c3_resonance_majority_witness :
    (⟨Dir.long, 100, 90, "a", "s1"⟩ : RawSignal).direction = Dir.long ∧
    (⟨Dir.long, 101, 91, "b", "s2"⟩ : RawSignal).direction = Dir.long ∧
    (⟨Dir.short, 102, 110, "c", "s3"⟩ : RawSignal).direction = Dir.short ∧
    ∃ r, calc_resonance [⟨Dir.long, 100, 90, "a", "s1"⟩, ⟨Dir.long, 101, 91, "b", "s2"⟩,
      ⟨Dir.short, 102, 110, "c", "s3"⟩] = some r ∧
      r.direction = Dir.long ∧ r.strength = 2 :=
  ⟨rfl, rfl, rfl, c3_resonance_majority.2.2 _ _ _ rfl rfl rfl⟩

/-- C4 witness: the conservative-stop property instantiated at the two
long signals with stops 97 and 98. -/
theorem c4_resonance_stop_witness :
    c4Signals ≠ [] ∧
    ∃ r, calc_resonance c4Signals = some r ∧
      (r.direction = Dir.long →
        (∃ s ∈ c4Signals.filter (fun s => s.direction = Dir.long),
          r.stop_loss = s.stop_loss) ∧
        ∀ s ∈ c4Signals.filter (fun s => s.direction = Dir.long),
          s.stop_loss ≤ r.stop_loss) ∧
      (r.direction = Dir.short →
        (∃ s ∈ c4Signals.filter (fun s => s.direction = Dir.short),
          r.stop_loss = s.stop_loss) ∧
        ∀ s ∈ c4Signals.filter (fun s => s.direction = Dir.short),
          r.stop_loss ≤ s.stop_loss) :=
  ⟨by simp [c4Signals], c4_resonance_stop.1 c4Signals (by simp [c4Signals])⟩

/-- C5 witness: the pin bar evaluator abstains at index 5, below its
warm-up of 20. -/
theorem c5_warmup_none_witness :
    5 < pin_startup ∧ pin_check_signal pinDefaults [] 5 = none :=
  ⟨by decide, c5_warmup_none.1 pinDefaults [] 5 (by decide)⟩

/-- C7 witness: an empty candle list yields the short-data error. -/
theorem c7_structured_errors_witness :
    ([] : List Candle).length < 100 ∧
    run_backtest_ids [] ["pin_bar"] 1 10000 defaultRules [] 1 =
      Except.error "K线数据不足（至少100根）" :=
  ⟨by decide, (c7_structured_errors [] ["pin_bar"] 1 10000 defaultRules [] 1).2.1
    (by decide)⟩

/-- C2 witness: the exposure cap instantiated at a trivial configuration
and bar 5. -/
theorem c2_exposure_cap_witness :
    0 ≤ c2Cfg.initial_capital * c2Cfg.rules.max_total_pct ∧
    sumSizes (stateAfter c2Cfg 5).open_positions ≤
      c2Cfg.initial_capital * c2Cfg.rules.max_total_pct / 100 :=
  ⟨by norm_num [c2Cfg, defaultRules],
    (c2_exposure_cap c2Cfg (by norm_num [c2Cfg, defaultRules])).1 5⟩

/-- C8 witness: on the table with keys 0 and 30 and holding duration 35,
the applicable roi threshold is the value at key 30. -/
theorem c8_roi_lookup_witness :
    ((c8Table.map Prod.fst).Nodup) ∧
    get_roi_target c8Table 35 = some (1/20) := by
  have hnd : (c8Table.map Prod.fst).Nodup := by simp [c8Table]
  refine ⟨hnd, ?_⟩
  refine ((c8_roi_lookup c8Table 35 hnd).2.1 (1/20)).mpr ?_
  refine ⟨(30, 1/20), by simp [c8Table], rfl, by norm_num, ?_⟩
  intro kv2 hkv2 _
  rcases List.mem_cons.mp hkv2 with h | h
  · rw [h]
    exact Nat.zero_le 30
  · rcases List.mem_cons.mp h with h | h
    · rw [h]
    · cases h

/-- C10 witness: a single zero-pnl trade is counted losing, the counts add
up and the win rate divides by the full count. -/
theorem c10_zero_pnl_losing_witness :
    [c10Trade] ≠ [] ∧ c10Trade.pnl = 0 ∧
    (calc_report [c10Trade] [] 10000 10000 []).winning_trades +
      (calc_report [c10Trade] [] 10000 10000 []).losing_trades =
      (calc_report [c10Trade] [] 10000 10000 []).total_trades ∧
    (calc_report [c10Trade] [] 10000 10000 []).losing_trades =
      ([c10Trade].filter (fun t => decide (t.pnl ≤ 0))).length ∧
    c10Trade ∈ [c10Trade].filter (fun t => decide (t.pnl ≤ 0)) := by
  have h := c10_zero_pnl_losing [c10Trade] [] 10000 10000 []
  have hne : [c10Trade] ≠ [] := by simp
  exact ⟨hne, rfl, h.1, (h.2.2 hne).2.1, (h.2.2 hne).2.2.1 c10Trade (by simp) rfl⟩

set_option maxHeartbeats 1000000 in
/-- C6 witness: the amended stop invariant instantiated at a sane candle
list with positive closes on which the pin bar evaluator fires a hammer. -/
theorem c6_stop_invariant_amended_witness :
    (∀ c ∈ c6Candles, c.low ≤ min c.open_ c.close ∧
      max c.open_ c.close ≤ c.high ∧ 0 < c.close) ∧
    (pin_check_signal pinDefaults c6Candles 20 = some c6Sig ∨
      macd_check_signal macdDefaults c6Candles 20 = some c6Sig ∨
      ma90_check_signal ma90Defaults c6Candles 20 = some c6Sig ∨
      rsi_check_signal rsiDefaults c6Candles 20 = some c6Sig ∨
      bb_check_signal bbDefaults c6Candles 20 = some c6Sig) ∧
    (c6Sig.direction = Dir.long → c6Sig.stop_loss < c6Sig.entry_price) ∧
    (c6Sig.direction = Dir.short → c6Sig.entry_price < c6Sig.stop_loss) := by
  have hsane : ∀ c ∈ c6Candles, c.low ≤ min c.open_ c.close ∧
      max c.open_ c.close ≤ c.high ∧ 0 < c.close := by
    intro c hc
    simp only [c6Candles, flatBar, List.mem_cons, List.not_mem_nil, or_false] at hc
    rcases hc with rfl | rfl | rfl | rfl | rfl | rfl | rfl | rfl | rfl | rfl | rfl |
      rfl | rfl | rfl | rfl | rfl | rfl | rfl | rfl | rfl | rfl <;>
      norm_num [min_def, max_def]
  have hsig : pin_check_signal pinDefaults c6Candles 20 = some c6Sig := by
    norm_num [pin_check_signal, pin_is_downtrend, pin_is_uptrend, pinDefaults,
      pin_startup, c6Candles, flatBar, c6Sig, List.getD, min_def, max_def, abs]
  have hmain := c6_stop_invariant_amended c6Candles 20 hsane c6Sig (Or.inl hsig)
  exact ⟨hsane, Or.inl hsig, hmain.1, hmain.2⟩
